import Mathlib

/-
  Verification of the az-lang interpreter (an English-like scripting
  language implemented in Go) against its natural-language specification.

  The development shallowly embeds the relevant parts of the source:

  * the token layer (package token: token kinds, number-word tables);
  * the AST (package ast) restricted to the node kinds the verified
    claims touch, as a pair of nested inductive types;
  * the recursive-descent expression parser (package parser), embedded
    as fuel-indexed state-passing functions over a token stream;
  * the tree-walking evaluator (package interpreter), embedded as
    fuel-indexed functions over an explicit heap of environment frames
    (mirroring Go's pointer-linked object.Environment values);
  * the HTTP route-dispatch skeleton (matchRoute / handleIncomingRequest)
    with the wire-level response writing;
  * the JSON conversion layer (objectToInterface / interfaceToObject)
    around the host JSON codec, which is modelled from the spec as an
    opaque round-tripping codec over a JSON value tree.

  Machine integers: Go int64 values are modelled as Int together with an
  explicit two's-complement wrap `wrap64` applied exactly where the Go
  arithmetic can overflow.

  Go `nil` object references (which the interpreter stores in
  environments and returns from Eval for absent results) are modelled as
  `none : Option Obj`.
-/

/-! ## Two's-complement 64-bit integer arithmetic -/

/-- Wrap an unbounded integer into the signed 64-bit range, exactly as Go
int64 addition/subtraction/multiplication/negation overflow behaves. -/
def wrap64 (z : Int) : Int :=
  (z + 2 ^ 63) % 2 ^ 64 - 2 ^ 63

/-- `z` is representable as a Go int64. -/
def In64 (z : Int) : Prop :=
  -(2 ^ 63) ≤ z ∧ z < 2 ^ 63

instance (z : Int) : Decidable (In64 z) := by
  unfold In64; infer_instance

theorem wrap64_eq_self {z : Int} (h : In64 z) : wrap64 z = z := by
  obtain ⟨h1, h2⟩ := h
  unfold wrap64
  omega

theorem wrap64_in64 (z : Int) : In64 (wrap64 z) := by
  unfold wrap64 In64
  constructor <;> omega

/-! ## Token layer (package token)

TokenType in Go is a string; the closed vocabulary below mirrors the
constant block of token.go.  `TokType.str` recovers the string value of
each constant (used in parser diagnostics). -/

inductive TokType where
  | ILLEGAL | EOF
  | IDENT | NUMBER | STRING
  | SET | TO
  | PLUS | TIMES | DIVIDED | MINUS
  | INCREASE | DECREASE | BY
  | IF | THEN | OTHERWISE | EQUALS | IS | GREATER | LESS | THAN
  | AND | OR | NOT
  | WHILE | DO | FOR | EACH | IN
  | DONE
  | RETURN | CALL | WITH
  | SAY | ASK
  | A | LIST | OF | LENGTH | APPEND | GET | ITEM | FROM
  | INTO
  | FETCH | SEND | PUT | DELETE | BODY | STATUS | HEADER | HEADERS
  | PARSE | JSON | FIELD | ENCODE | AS
  | SERVE | ON | WHEN | REQUEST | AT | USING | REPLY | ROUTE
  | BACKGROUND | STOP | SERVER | QUERY | METHOD | PATH
  | ZERO | ONE | TWO | THREE | FOUR | FIVE | SIX | SEVEN | EIGHT | NINE
  | TEN | ELEVEN | TWELVE | THIRTEEN | FOURTEEN | FIFTEEN | SIXTEEN
  | SEVENTEEN | EIGHTEEN | NINETEEN
  | TWENTY | THIRTY | FORTY | FIFTY | SIXTY | SEVENTY | EIGHTY | NINETY
  | HUNDRED | THOUSAND | MILLION
  deriving DecidableEq, Repr

/-- The string value of each TokenType constant of token.go. -/
def TokType.str : TokType → String
  | .ILLEGAL => "ILLEGAL"
  | .EOF => "EOF"
  | .IDENT => "IDENT"
  | .NUMBER => "NUMBER"
  | .STRING => "STRING"
  | .SET => "SET"
  | .TO => "TO"
  | .PLUS => "PLUS"
  | .TIMES => "TIMES"
  | .DIVIDED => "DIVIDED"
  | .MINUS => "MINUS"
  | .INCREASE => "INCREASE"
  | .DECREASE => "DECREASE"
  | .BY => "BY"
  | .IF => "IF"
  | .THEN => "THEN"
  | .OTHERWISE => "OTHERWISE"
  | .EQUALS => "EQUALS"
  | .IS => "IS"
  | .GREATER => "GREATER"
  | .LESS => "LESS"
  | .THAN => "THAN"
  | .AND => "AND"
  | .OR => "OR"
  | .NOT => "NOT"
  | .WHILE => "WHILE"
  | .DO => "DO"
  | .FOR => "FOR"
  | .EACH => "EACH"
  | .IN => "IN"
  | .DONE => "DONE"
  | .RETURN => "RETURN"
  | .CALL => "CALL"
  | .WITH => "WITH"
  | .SAY => "SAY"
  | .ASK => "ASK"
  | .A => "A"
  | .LIST => "LIST"
  | .OF => "OF"
  | .LENGTH => "LENGTH"
  | .APPEND => "APPEND"
  | .GET => "GET"
  | .ITEM => "ITEM"
  | .FROM => "FROM"
  | .INTO => "INTO"
  | .FETCH => "FETCH"
  | .SEND => "SEND"
  | .PUT => "PUT"
  | .DELETE => "DELETE"
  | .BODY => "BODY"
  | .STATUS => "STATUS"
  | .HEADER => "HEADER"
  | .HEADERS => "HEADERS"
  | .PARSE => "PARSE"
  | .JSON => "JSON"
  | .FIELD => "FIELD"
  | .ENCODE => "ENCODE"
  | .AS => "AS"
  | .SERVE => "SERVE"
  | .ON => "ON"
  | .WHEN => "WHEN"
  | .REQUEST => "REQUEST"
  | .AT => "AT"
  | .USING => "USING"
  | .REPLY => "REPLY"
  | .ROUTE => "ROUTE"
  | .BACKGROUND => "BACKGROUND"
  | .STOP => "STOP"
  | .SERVER => "SERVER"
  | .QUERY => "QUERY"
  | .METHOD => "METHOD"
  | .PATH => "PATH"
  | .ZERO => "ZERO"
  | .ONE => "ONE"
  | .TWO => "TWO"
  | .THREE => "THREE"
  | .FOUR => "FOUR"
  | .FIVE => "FIVE"
  | .SIX => "SIX"
  | .SEVEN => "SEVEN"
  | .EIGHT => "EIGHT"
  | .NINE => "NINE"
  | .TEN => "TEN"
  | .ELEVEN => "ELEVEN"
  | .TWELVE => "TWELVE"
  | .THIRTEEN => "THIRTEEN"
  | .FOURTEEN => "FOURTEEN"
  | .FIFTEEN => "FIFTEEN"
  | .SIXTEEN => "SIXTEEN"
  | .SEVENTEEN => "SEVENTEEN"
  | .EIGHTEEN => "EIGHTEEN"
  | .NINETEEN => "NINETEEN"
  | .TWENTY => "TWENTY"
  | .THIRTY => "THIRTY"
  | .FORTY => "FORTY"
  | .FIFTY => "FIFTY"
  | .SIXTY => "SIXTY"
  | .SEVENTY => "SEVENTY"
  | .EIGHTY => "EIGHTY"
  | .NINETY => "NINETY"
  | .HUNDRED => "HUNDRED"
  | .THOUSAND => "THOUSAND"
  | .MILLION => "MILLION"

/-- token.IsNumberWord. -/
def IsNumberWord (t : TokType) : Bool :=
  match t with
  | .ZERO | .ONE | .TWO | .THREE | .FOUR | .FIVE | .SIX | .SEVEN | .EIGHT
  | .NINE | .TEN | .ELEVEN | .TWELVE | .THIRTEEN | .FOURTEEN | .FIFTEEN
  | .SIXTEEN | .SEVENTEEN | .EIGHTEEN | .NINETEEN | .TWENTY | .THIRTY
  | .FORTY | .FIFTY | .SIXTY | .SEVENTY | .EIGHTY | .NINETY | .HUNDRED
  | .THOUSAND | .MILLION => true
  | _ => false

/-- token.NumberWordValue. -/
def NumberWordValue (t : TokType) : Int :=
  match t with
  | .ZERO => 0
  | .ONE => 1
  | .TWO => 2
  | .THREE => 3
  | .FOUR => 4
  | .FIVE => 5
  | .SIX => 6
  | .SEVEN => 7
  | .EIGHT => 8
  | .NINE => 9
  | .TEN => 10
  | .ELEVEN => 11
  | .TWELVE => 12
  | .THIRTEEN => 13
  | .FOURTEEN => 14
  | .FIFTEEN => 15
  | .SIXTEEN => 16
  | .SEVENTEEN => 17
  | .EIGHTEEN => 18
  | .NINETEEN => 19
  | .TWENTY => 20
  | .THIRTY => 30
  | .FORTY => 40
  | .FIFTY => 50
  | .SIXTY => 60
  | .SEVENTY => 70
  | .EIGHTY => 80
  | .NINETY => 90
  | .HUNDRED => 100
  | .THOUSAND => 1000
  | .MILLION => 1000000
  | _ => 0

/-- token.IsMultiplier. -/
def IsMultiplier (t : TokType) : Bool :=
  t = .HUNDRED || t = .THOUSAND || t = .MILLION

/-- A lexer token: kind, lexeme, and source position. -/
structure Token where
  type : TokType
  literal : String
  line : Nat
  column : Nat
  deriving DecidableEq, Repr

/-- The EOF sentinel token the lexer produces at (and beyond) the end of
the source. -/
def eofTok : Token := ⟨.EOF, "", 0, 0⟩

/-! ## AST (package ast)

`Expr` and `Stmt` mirror the Expression / Statement node structs of
ast.go restricted to the node kinds reached by the verified claims.
A Go `*ast.BlockStatement` is represented by its statement list.
`Expr.enil` represents a Go `nil` Expression stored inside a node (the
parser produces such nodes on malformed input); `Eval` on it falls
through the dispatch switch and returns Go `nil`.

`IntegerLiteral` and `BooleanLiteral` keep the literal text of their
introducing token because their `String()` methods print `Token.Literal`
(used by `object.Function.Inspect`). -/

mutual

inductive Expr where
  | intLit (value : Int) (lit : String)
  | strLit (value : String)
  | boolLit (value : Bool) (lit : String)
  | ident (value : String)
  | listLit (elements : List Expr)
  | negative (value : Expr)
  | arith (left : Expr) (op : String) (right : Expr)
  | cmp (left : Expr) (op : String) (right : Expr)
  | logical (left : Option Expr) (op : String) (right : Expr)
  | callE (function : String) (arguments : List Expr)
  | lengthOf (list : Expr)
  | index (idx : Expr) (list : Expr)
  | bodyOf (response : Expr)
  | statusOf (response : Expr)
  | headerFrom (headerName : Expr) (response : Expr)
  | fieldFrom (fieldName : Expr) (source : Expr)
  | methodOf (request : Expr)
  | pathOf (request : Expr)
  | queryFrom (queryName : Expr) (request : Expr)
  | enil

inductive Stmt where
  | set (name : String) (value : Expr)
  | ifS (condition : Expr) (consequence : List Stmt)
      (alternative : Option (List Stmt))
  | whileS (condition : Expr) (body : List Stmt)
  | forS (var : String) (iterable : Expr) (body : List Stmt)
  | funcDef (name : String) (parameters : List String) (body : List Stmt)
  | ret (returnValue : Option Expr)

end

/-! ## JSON value tree

Modelled from the spec: the host JSON codec (`json_decode(string) ->
value | decode_error`, `json_encode(value) -> string`) is an opaque
external capability; the wire string is never inspected by the core, so
the codec is modelled at the level of the JSON value tree it
round-trips.  Go's `interface⟨⟩` JSON model (nil / bool / float64 /
string / []interface / map[string]interface) becomes `Jv`; per the spec,
numbers are carried as Integers (decoding truncates to Integer). -/

inductive Jv where
  | jnull
  | jbool (b : Bool)
  | jnum (n : Int)
  | jstr (s : String)
  | jarr (xs : List Jv)
  | jobj (fields : List (String × Jv))

/-! ## Runtime values (package object)

`Obj` mirrors the object.Object implementations.  Go `nil` object
references are `none : Option Obj` wherever an Object is stored or
returned, so `Obj.list` holds `List (Option Obj)` (Go `[]Object` slots
can hold nil) and environment stores map names to `Option Obj`.
The Server metadata object is not reachable from the verified claims
and is omitted. -/

inductive Obj where
  | int (value : Int)
  | str (value : String)
  | bool (value : Bool)
  | null
  | retVal (value : Option Obj)
  | error (message : String)
  | func (parameters : List String) (body : List Stmt) (env : Nat)
  | list (elements : List (Option Obj))
  | response (status : Int) (body : String) (headers : List (String × String))
  | request (method : String) (path : String) (body : String)
      (headers : List (String × String)) (query : List (String × String))
  | json (value : Jv)
  | reply (status : Int) (body : String) (headers : List (String × String))

/-- Object.Type() of object.go. -/
def Obj.typeName : Obj → String
  | .int _ => "INTEGER"
  | .str _ => "STRING"
  | .bool _ => "BOOLEAN"
  | .null => "NULL"
  | .retVal _ => "RETURN_VALUE"
  | .error _ => "ERROR"
  | .func _ _ _ => "FUNCTION"
  | .list _ => "LIST"
  | .response _ _ _ => "RESPONSE"
  | .request _ _ _ _ _ => "REQUEST"
  | .json _ => "JSON"
  | .reply _ _ _ => "REPLY_VALUE"

/-- Serialization of a JSON tree (the host json.Marshal, modelled from
the spec; string escaping covers the JSON-mandated characters). -/
def jsonQuote (s : String) : String :=
  "\"" ++ String.join (s.data.map fun c =>
    if c = '\"' then "\\\"" else if c = '\\' then "\\\\"
    else if c = '\n' then "\\n" else if c = '\t' then "\\t"
    else if c = '\r' then "\\r" else String.singleton c) ++ "\""

mutual

def Jv.marshal : Jv → String
  | .jnull => "null"
  | .jbool b => if b then "true" else "false"
  | .jnum n => toString n
  | .jstr s => jsonQuote s
  | .jarr xs => "[" ++ String.intercalate "," (Jv.marshalList xs) ++ "]"
  | .jobj fs => "\x7b" ++ String.intercalate "," (Jv.marshalFields fs) ++ "\x7d"

def Jv.marshalList : List Jv → List String
  | [] => []
  | x :: xs => Jv.marshal x :: Jv.marshalList xs

def Jv.marshalFields : List (String × Jv) → List String
  | [] => []
  | (k, v) :: fs => (jsonQuote k ++ ":" ++ Jv.marshal v) :: Jv.marshalFields fs

end

/-- Go fmt `%t` of a bool. -/
def boolText (b : Bool) : String := if b then "true" else "false"

/-- Go fmt `%q` of a string (quoted form; the escaping analogue used in
Response/ReplyValue Inspect strings). -/
def goQuote (s : String) : String := jsonQuote s

/-! Inspect() of object.go.  Function.Inspect prints its parameter list
and its body through the ast String() methods, so the two families are
mutually recursive with the AST printers below.  A Go nil object slot
inside a List would make `Inspect` dereference nil and panic; the model
returns a sentinel string in that (unreachable) case. -/

mutual

def Obj.inspect : Obj → String
  | .int n => toString n
  | .str s => s
  | .bool b => boolText b
  | .null => "null"
  | .retVal (some v) => Obj.inspect v
  | .retVal none => "panic: nil value"
  | .error m => "ERROR: " ++ m
  | .func ps body _ =>
      "to function" ++
      (if ps.length > 0 then " with " ++ String.intercalate " and " ps
       else "") ++
      " z\n" ++ blockString body
  | .list es =>
      "[" ++ String.intercalate ", " (inspectElems es) ++ "]"
  | .response st b _ =>
      "Response\x7bstatus: " ++ toString st ++ ", body: " ++ goQuote b ++ "\x7d"
  | .request m p _ _ _ =>
      "Request\x7bmethod: " ++ m ++ ", path: " ++ p ++ "\x7d"
  | .json v => Jv.marshal v
  | .reply st b _ =>
      "Reply\x7bstatus: " ++ toString st ++ ", body: " ++ goQuote b ++ "\x7d"

def inspectElems : List (Option Obj) → List String
  | [] => []
  | some o :: es => Obj.inspect o :: inspectElems es
  | none :: es => "panic: nil element" :: inspectElems es

def exprString : Expr → String
  | .intLit _ lit => lit
  | .strLit s => "\"" ++ s ++ "\""
  | .boolLit _ lit => lit
  | .ident v => v
  | .listLit es => "a list of " ++ String.intercalate " and " (exprStrings es)
  | .negative v => "minus " ++ exprString v
  | .arith l op r =>
      exprString l ++ " " ++ op ++
      (if op = "divided" then " by " else " ") ++ exprString r
  | .cmp l op r => exprString l ++ " " ++ op ++ " " ++ exprString r
  | .logical l op r =>
      (match l with
       | some e => exprString e ++ " "
       | none => "") ++ op ++ " " ++ exprString r
  | .callE f args =>
      f ++ (if args.length > 0 then
              " with " ++ String.intercalate " and " (exprStrings args)
            else "")
  | .lengthOf l => "length of " ++ exprString l
  | .index i l => "item " ++ exprString i ++ " from " ++ exprString l
  | .bodyOf r => "body of " ++ exprString r
  | .statusOf r => "status of " ++ exprString r
  | .headerFrom h r => "header " ++ exprString h ++ " from " ++ exprString r
  | .fieldFrom f s => "field " ++ exprString f ++ " from " ++ exprString s
  | .methodOf r => "method of " ++ exprString r
  | .pathOf r => "path of " ++ exprString r
  | .queryFrom q r => "query " ++ exprString q ++ " from " ++ exprString r
  | .enil => ""

def exprStrings : List Expr → List String
  | [] => []
  | e :: es => exprString e :: exprStrings es

def stmtString : Stmt → String
  | .set name v => "set " ++ name ++ " to " ++ exprString v
  | .ifS c cons alt =>
      "if " ++ exprString c ++ " then " ++ blockString cons ++
      (match alt with
       | some b => " otherwise " ++ blockString b
       | none => "")
  | .whileS c b => "while " ++ exprString c ++ " do " ++ blockString b
  | .forS v it b =>
      "for each " ++ v ++ " in " ++ exprString it ++ " do " ++ blockString b
  | .funcDef name ps b =>
      "to " ++ name ++
      (if ps.length > 0 then " with " ++ String.intercalate " and " ps
       else "") ++ " " ++ blockString b
  | .ret rv =>
      "return " ++ (match rv with
                    | some e => exprString e
                    | none => "")

def blockString : List Stmt → String
  | [] => "done"
  | s :: rest => stmtString s ++ " " ++ blockString rest

end

/-! ## Environments (object.Environment)

Go environments are heap-allocated frames linked by `outer` pointers
and shared by reference (closures capture them, calls extend them).
The model makes the heap explicit: a `Frame` is a name→value map plus an
optional outer frame, and an environment value is an index into a list
of frames.  `Environment.Get` walks the outer chain; since an arbitrary
heap could contain a pointer cycle (the interpreter never builds one),
the walk carries enough fuel for any acyclic chain. -/

structure Frame where
  store : List (String × Option Obj)
  outer : Option Nat

abbrev Heap := List Frame

/-- Lookup in one frame's map. -/
def storeGet : List (String × Option Obj) → String → Option (Option Obj)
  | [], _ => none
  | (k, v) :: rest, name => if k = name then some v else storeGet rest name

/-- Map update (insert or replace) in one frame's map. -/
def storeSet : List (String × Option Obj) → String → Option Obj →
    List (String × Option Obj)
  | [], name, val => [(name, val)]
  | (k, v) :: rest, name, val =>
      if k = name then (k, val) :: rest
      else (k, v) :: storeSet rest name val

/-- Environment.Get, walking the outer chain with explicit fuel. -/
def envGetAux (heap : Heap) : Nat → Nat → String → Option (Option Obj)
  | 0, _, _ => none
  | fuel + 1, id, name =>
    match heap.get? id with
    | none => none
    | some fr =>
      match storeGet fr.store name with
      | some v => some v
      | none =>
        match fr.outer with
        | some o => envGetAux heap fuel o name
        | none => none

/-- Environment.Get: `some v` when the name resolves somewhere on the
chain (`v` itself may be a stored Go nil), `none` when unbound. -/
def envGet (heap : Heap) (id : Nat) (name : String) : Option (Option Obj) :=
  envGetAux heap (heap.length + 1) id name

/-- Environment.Set: writes only into the frame `id` itself. -/
def envSet : Heap → Nat → String → Option Obj → Heap
  | [], _, _, _ => []
  | fr :: rest, 0, name, val =>
      { fr with store := storeSet fr.store name val } :: rest
  | fr :: rest, id + 1, name, val => fr :: envSet rest id name val

/-- object.NewEnclosedEnvironment: allocates a fresh empty frame whose
outer pointer is `outer`; the new frame's index is the old heap length. -/
def NewEnclosedEnvironment (heap : Heap) (outer : Nat) : Heap :=
  heap ++ [⟨[], some outer⟩]

/-! ## Pure evaluator helpers (interpreter.go) -/

/-- The NULL singleton. -/
def NULLOBJ : Obj := .null

/-- nativeBoolToBooleanObject: the TRUE / FALSE singletons. -/
def nativeBoolToBooleanObject (input : Bool) : Obj :=
  if input then .bool true else .bool false

/-- isTruthy.  The argument is a possibly-nil Object; a Go nil falls to
the switch default and counts as truthy. -/
def isTruthy : Option Obj → Bool
  | some .null => false
  | some (.bool b) => b
  | some (.int n) => decide (n ≠ 0)
  | _ => true

/-- isError (false on Go nil). -/
def isError : Option Obj → Bool
  | some (.error _) => true
  | _ => false

/-- The `result != nil && (rt == RETURN_VALUE_OBJ || rt == ERROR_OBJ)`
check of evalBlockStatement / the loop bodies. -/
def isRetOrError : Option Obj → Bool
  | some (.retVal _) => true
  | some (.error _) => true
  | _ => false

/-- `v.Type()` on a possibly-nil Object: Go would panic on nil (the
interpreter never feeds nil to these call sites in practice). -/
def typeNameR : Option Obj → String
  | some o => o.typeName
  | none => "panic: nil dereference"

/-- evalEquals (both arguments non-nil in Go; a nil operand would make
Go panic at `.Type()`, handled at the call site). -/
def evalEquals (left right : Obj) : Obj :=
  match left, right with
  | .null, .null => nativeBoolToBooleanObject true
  | .null, _ => nativeBoolToBooleanObject false
  | _, .null => nativeBoolToBooleanObject false
  | .int a, .int b => nativeBoolToBooleanObject (a = b)
  | .str a, .str b => nativeBoolToBooleanObject (a = b)
  | .bool a, .bool b => nativeBoolToBooleanObject (a = b)
  | _, _ => nativeBoolToBooleanObject false

/-- evalGreater. -/
def evalGreater (left right : Obj) : Obj :=
  match left with
  | .int a =>
    match right with
    | .int b => nativeBoolToBooleanObject (a > b)
    | _ => .error ("comparison requires integers, got " ++ right.typeName)
  | _ => .error ("comparison requires integers, got " ++ left.typeName)

/-- evalLess. -/
def evalLess (left right : Obj) : Obj :=
  match left with
  | .int a =>
    match right with
    | .int b => nativeBoolToBooleanObject (a < b)
    | _ => .error ("comparison requires integers, got " ++ right.typeName)
  | _ => .error ("comparison requires integers, got " ++ left.typeName)

/-- The string form `plus` uses for an operand: the String's value, or
`Inspect` for any other object (nil would panic in Go). -/
def strForm : Option Obj → String
  | some (.str s) => s
  | some o => o.inspect
  | none => "panic: nil dereference"

/-- evalIdentifier: the names null/true/false always resolve to the
built-in singletons; anything else is looked up on the environment
chain, and an unbound name is a runtime error.  (No heap mutation.) -/
def evalIdentifier (name : String) (env : Nat) (heap : Heap) : Option Obj :=
  if name = "null" then some .null
  else if name = "true" then some (.bool true)
  else if name = "false" then some (.bool false)
  else
    match envGet heap env name with
    | some v => v
    | none => some (.error ("undefined variable: " ++ name))

/-- evalFunctionDefinition: builds the Function object capturing the
defining environment and binds it under the function's name. -/
def evalFunctionDefinition (name : String) (params : List String)
    (body : List Stmt) (env : Nat) (heap : Heap) : Option Obj × Heap :=
  let fn : Obj := .func params body env
  (some fn, envSet heap env name (some fn))

/-- The parameter-binding loop of evalCallExpression: parameters are
bound positionally, and a parameter index with no argument is skipped
(`if i < len(args)`). -/
def bindParameters (params : List String) (args : List (Option Obj)) :
    List (String × Option Obj) :=
  (params.zip args).foldl (fun st pv => storeSet st pv.1 pv.2) []

/-- First-value lookup in a header/query map. -/
def lookupStr : List (String × String) → String → Option String
  | [], _ => none
  | (k, v) :: rest, name => if k = name then some v else lookupStr rest name

/-! ## JSON conversions (interpreter.go) -/

mutual

/-- objectToInterface: language value → host JSON value (default case,
including Null and non-encodable objects, is Go `nil`, i.e. JSON null). -/
def objectToInterface : Obj → Jv
  | .int n => .jnum n
  | .str s => .jstr s
  | .bool b => .jbool b
  | .null => .jnull
  | .list es => .jarr (objectToInterfaceList es)
  | .json v => v
  | _ => .jnull

def objectToInterfaceList : List (Option Obj) → List Jv
  | [] => []
  | some o :: es => objectToInterface o :: objectToInterfaceList es
  | none :: es => .jnull :: objectToInterfaceList es

end

mutual

/-- interfaceToObject: host JSON value → language value (numbers become
Integer, arrays become List, objects stay wrapped in Json). -/
def interfaceToObject : Jv → Obj
  | .jnull => .null
  | .jbool b => nativeBoolToBooleanObject b
  | .jnum n => .int n
  | .jstr s => .str s
  | .jarr xs => .list (interfaceToObjectList xs)
  | .jobj fs => .json (.jobj fs)

def interfaceToObjectList : List Jv → List (Option Obj)
  | [] => []
  | x :: xs => some (interfaceToObject x) :: interfaceToObjectList xs

end

/-- The object-field lookup step of getJsonField: only JSON objects can
be traversed. -/
def jvField : Jv → String → Option Jv
  | .jobj fs, part => (fs.find? (fun kv => kv.1 = part)).map Prod.snd
  | _, _ => none

/-- strings.Split(path, ".") over the character list (empty path gives
one empty part, consecutive dots give empty parts, as in Go). -/
def splitOnDotAux : List Char → String → List String
  | [], acc => [acc]
  | c :: cs, acc =>
    if c = '.' then acc :: splitOnDotAux cs ""
    else splitOnDotAux cs (acc ++ String.singleton c)

def splitOnDot (s : String) : List String := splitOnDotAux s.data ""

/-- getJsonField: split the path on `.`, walk object fields, lift the
final value; any miss or non-object on the way yields NULL. -/
def getJsonField (data : Jv) (path : String) : Obj :=
  go (splitOnDot path) data
where
  go : List String → Jv → Obj
    | [], current => interfaceToObject current
    | part :: parts, current =>
      match jvField current part with
      | some next => go parts next
      | none => .null

/-- The conversion switch of evalEncodeJsonStatement (the value handed
to the host `json.Marshal`); note there is no case for Null, which falls
through to the error default. -/
def encodeJsonSource (source : Obj) : Except String Jv :=
  match source with
  | .json v => .ok v
  | .str s => .ok (.jstr s)
  | .int n => .ok (.jnum n)
  | .bool b => .ok (.jbool b)
  | .list es => .ok (.jarr (objectToInterfaceList es))
  | _ => .error ("cannot encode " ++ source.typeName ++ " as json")

/-- evalParseJsonStatement wraps the decoded host JSON value in an
opaque Json object.  Modelled from the spec: `json_decode` applied to
the string `json_encode` produced recovers the same JSON value tree. -/
def parseJsonOfEncoded (decoded : Jv) : Obj := .json decoded

/-! ## The evaluator (interpreter.go)

`EvalExpr` and `EvalStmt` are the two halves of the interpreter's `Eval`
dispatch switch; the evalXxx functions mirror the per-node handlers.
Every function is indexed by fuel and consumes one unit per call, so the
whole family is structurally recursive; `none` means the fuel ran out
(Go simply recurses).  A result `some (v, h)` carries the possibly-nil
Object `v` and the heap of environment frames after the call. -/

abbrev EvalR := Option (Option Obj × Heap)

/-- `s.(*object.String)` succeeds. -/
def isStringR : Option Obj → Bool
  | some (.str _) => true
  | _ => false

/-- The UTF-8 encoding of one character (Go strings are byte slices in
UTF-8; `len` and byte indexing see this encoding). -/
def utf8BytesChar (c : Char) : List Nat :=
  let n := c.toNat
  if n < 128 then [n]
  else if n < 2048 then [192 + n / 64, 128 + n % 64]
  else if n < 65536 then
    [224 + n / 4096, 128 + (n / 64) % 64, 128 + n % 64]
  else
    [240 + n / 262144, 128 + (n / 4096) % 64, 128 + (n / 64) % 64,
     128 + n % 64]

/-- The UTF-8 byte sequence of a string. -/
def utf8Bytes (s : String) : List Nat :=
  s.data.flatMap utf8BytesChar

set_option maxHeartbeats 3200000 in
mutual

def EvalExpr (fuel : Nat) (node : Expr) (env : Nat) (heap : Heap) : EvalR :=
  match fuel with
  | 0 => none
  | n + 1 =>
    match node with
    | .intLit v _ => some (some (.int v), heap)
    | .strLit s => some (some (.str s), heap)
    | .boolLit b _ => some (some (nativeBoolToBooleanObject b), heap)
    | .ident name => some (evalIdentifier name env heap, heap)
    | .negative e => evalNegativeExpression n e env heap
    | .listLit es => evalListLiteral n es env heap
    | .cmp l op r => evalComparisonExpression n l op r env heap
    | .logical l op r => evalLogicalExpression n l op r env heap
    | .arith l op r => evalArithmeticExpression n l op r env heap
    | .callE f args => evalCallExpression n f args env heap
    | .lengthOf e => evalLengthExpression n e env heap
    | .index i l => evalIndexExpression n i l env heap
    | .bodyOf e => evalBodyOfExpression n e env heap
    | .statusOf e => evalStatusOfExpression n e env heap
    | .headerFrom h r => evalHeaderFromExpression n h r env heap
    | .fieldFrom f s => evalFieldFromExpression n f s env heap
    | .methodOf e => evalMethodOfExpression n e env heap
    | .pathOf e => evalPathOfExpression n e env heap
    | .queryFrom q r => evalQueryFromExpression n q r env heap
    | .enil => some (none, heap)
  termination_by structural fuel

def EvalStmt (fuel : Nat) (node : Stmt) (env : Nat) (heap : Heap) : EvalR :=
  match fuel with
  | 0 => none
  | n + 1 =>
    match node with
    | .set name v => evalSetStatement n name v env heap
    | .ifS c cons alt => evalIfStatement n c cons alt env heap
    | .whileS c b => evalWhileStatement n c b env heap
    | .forS v it b => evalForStatement n v it b env heap
    | .funcDef name ps b => some (evalFunctionDefinition name ps b env heap)
    | .ret e => evalReturnStatement n e env heap
  termination_by structural fuel

def evalBlockStatement (fuel : Nat) (stmts : List Stmt) (env : Nat)
    (heap : Heap) : EvalR :=
  match fuel with
  | 0 => none
  | n + 1 =>
    match stmts with
    | [] => some (none, heap)
    | s :: rest =>
      match EvalStmt n s env heap with
      | none => none
      | some (r, h) =>
        if isRetOrError r then some (r, h)
        else
          match rest with
          | [] => some (r, h)
          | _ => evalBlockStatement n rest env h
  termination_by structural fuel

def evalSetStatement (fuel : Nat) (name : String) (value : Expr) (env : Nat)
    (heap : Heap) : EvalR :=
  match fuel with
  | 0 => none
  | n + 1 =>
    match EvalExpr n value env heap with
    | none => none
    | some (val, h1) =>
      if isError val then some (val, h1)
      else some (val, envSet h1 env name val)
  termination_by structural fuel

def evalIfStatement (fuel : Nat) (c : Expr) (cons : List Stmt)
    (alt : Option (List Stmt)) (env : Nat) (heap : Heap) : EvalR :=
  match fuel with
  | 0 => none
  | n + 1 =>
    match EvalExpr n c env heap with
    | none => none
    | some (cond, h1) =>
      if isError cond then some (cond, h1)
      else if isTruthy cond then evalBlockStatement n cons env h1
      else
        match alt with
        | some b => evalBlockStatement n b env h1
        | none => some (some .null, h1)
  termination_by structural fuel

def evalWhileStatement (fuel : Nat) (c : Expr) (body : List Stmt) (env : Nat)
    (heap : Heap) : EvalR :=
  match fuel with
  | 0 => none
  | n + 1 => evalWhileLoop n c body env heap (some .null)
  termination_by structural fuel

def evalWhileLoop (fuel : Nat) (c : Expr) (body : List Stmt) (env : Nat)
    (heap : Heap) (result : Option Obj) : EvalR :=
  match fuel with
  | 0 => none
  | n + 1 =>
    match EvalExpr n c env heap with
    | none => none
    | some (cond, h1) =>
      if isError cond then some (cond, h1)
      else if isTruthy cond then
        match evalBlockStatement n body env h1 with
        | none => none
        | some (r, h2) =>
          if isRetOrError r then some (r, h2)
          else evalWhileLoop n c body env h2 r
      else some (result, h1)
  termination_by structural fuel

def evalForStatement (fuel : Nat) (v : String) (iterable : Expr)
    (body : List Stmt) (env : Nat) (heap : Heap) : EvalR :=
  match fuel with
  | 0 => none
  | n + 1 =>
    match EvalExpr n iterable env heap with
    | none => none
    | some (it, h1) =>
      if isError it then some (it, h1)
      else
        match it with
        | some (.list elems) => evalForLoop n v elems body env h1 (some .null)
        | _ =>
          some (some (.error ("for each requires a list, got " ++
            typeNameR it)), h1)
  termination_by structural fuel

def evalForLoop (fuel : Nat) (v : String) (elems : List (Option Obj))
    (body : List Stmt) (env : Nat) (heap : Heap) (result : Option Obj) :
    EvalR :=
  match fuel with
  | 0 => none
  | n + 1 =>
    match elems with
    | [] => some (result, heap)
    | e :: es =>
      let h1 := envSet heap env v e
      match evalBlockStatement n body env h1 with
      | none => none
      | some (r, h2) =>
        if isRetOrError r then some (r, h2)
        else evalForLoop n v es body env h2 r
  termination_by structural fuel

def evalReturnStatement (fuel : Nat) (e : Option Expr) (env : Nat)
    (heap : Heap) : EvalR :=
  match fuel with
  | 0 => none
  | n + 1 =>
    match e with
    | none => some (some (.retVal (some .null)), heap)
    | some ex =>
      match EvalExpr n ex env heap with
      | none => none
      | some (val, h1) =>
        if isError val then some (val, h1)
        else some (some (.retVal val), h1)
  termination_by structural fuel

def evalNegativeExpression (fuel : Nat) (e : Expr) (env : Nat) (heap : Heap) :
    EvalR :=
  match fuel with
  | 0 => none
  | n + 1 =>
    match EvalExpr n e env heap with
    | none => none
    | some (val, h1) =>
      if isError val then some (val, h1)
      else
        match val with
        | some (.int v) => some (some (.int (wrap64 (-v))), h1)
        | _ =>
          some (some (.error ("minus requires an integer, got " ++
            typeNameR val)), h1)
  termination_by structural fuel

def evalListLiteral (fuel : Nat) (es : List Expr) (env : Nat) (heap : Heap) :
    EvalR :=
  match fuel with
  | 0 => none
  | n + 1 =>
    match evalExprList n es env heap with
    | none => none
    | some (.error e, h1) => some (some e, h1)
    | some (.ok vs, h1) => some (some (.list vs), h1)
  termination_by structural fuel

def evalExprList (fuel : Nat) (es : List Expr) (env : Nat) (heap : Heap) :
    Option (Except Obj (List (Option Obj)) × Heap) :=
  match fuel with
  | 0 => none
  | n + 1 =>
    match es with
    | [] => some (.ok [], heap)
    | e :: rest =>
      match EvalExpr n e env heap with
      | none => none
      | some (some (.error m), h1) => some (.error (.error m), h1)
      | some (v, h1) =>
        match evalExprList n rest env h1 with
        | none => none
        | some (.error err, h2) => some (.error err, h2)
        | some (.ok vs, h2) => some (.ok (v :: vs), h2)
  termination_by structural fuel

def evalComparisonExpression (fuel : Nat) (l : Expr) (op : String) (r : Expr)
    (env : Nat) (heap : Heap) : EvalR :=
  match fuel with
  | 0 => none
  | n + 1 =>
    match EvalExpr n l env heap with
    | none => none
    | some (left, h1) =>
      if isError left then some (left, h1)
      else
        match EvalExpr n r env h1 with
        | none => none
        | some (right, h2) =>
          if isError right then some (right, h2)
          else
            match left, right with
            | some lo, some ro =>
              match op with
              | "equals" => some (some (evalEquals lo ro), h2)
              | "greater" => some (some (evalGreater lo ro), h2)
              | "less" => some (some (evalLess lo ro), h2)
              | _ => some (some (nativeBoolToBooleanObject false), h2)
            | _, _ => some (some (.error "panic: nil dereference"), h2)
  termination_by structural fuel

def evalLogicalExpression (fuel : Nat) (l : Option Expr) (op : String)
    (r : Expr) (env : Nat) (heap : Heap) : EvalR :=
  match fuel with
  | 0 => none
  | n + 1 =>
    match op with
    | "not" =>
      match EvalExpr n r env heap with
      | none => none
      | some (right, h1) =>
        if isError right then some (right, h1)
        else some (some (nativeBoolToBooleanObject (!isTruthy right)), h1)
    | "and" =>
      match EvalExpr n (l.getD .enil) env heap with
      | none => none
      | some (left, h1) =>
        if isError left then some (left, h1)
        else if !isTruthy left then
          some (some (nativeBoolToBooleanObject false), h1)
        else
          match EvalExpr n r env h1 with
          | none => none
          | some (right, h2) =>
            if isError right then some (right, h2)
            else some (some (nativeBoolToBooleanObject (isTruthy right)), h2)
    | "or" =>
      match EvalExpr n (l.getD .enil) env heap with
      | none => none
      | some (left, h1) =>
        if isError left then some (left, h1)
        else if isTruthy left then
          some (some (nativeBoolToBooleanObject true), h1)
        else
          match EvalExpr n r env h1 with
          | none => none
          | some (right, h2) =>
            if isError right then some (right, h2)
            else some (some (nativeBoolToBooleanObject (isTruthy right)), h2)
    | _ => some (some (nativeBoolToBooleanObject false), heap)
  termination_by structural fuel

def evalArithmeticExpression (fuel : Nat) (l : Expr) (op : String) (r : Expr)
    (env : Nat) (heap : Heap) : EvalR :=
  match fuel with
  | 0 => none
  | n + 1 =>
    match EvalExpr n l env heap with
    | none => none
    | some (left, h1) =>
      if isError left then some (left, h1)
      else
        match EvalExpr n r env h1 with
        | none => none
        | some (right, h2) =>
          if isError right then some (right, h2)
          else
            if op = "plus" && (isStringR left || isStringR right) then
              some (some (.str (strForm left ++ strForm right)), h2)
            else
              match left with
              | some (.int a) =>
                match right with
                | some (.int b) =>
                  match op with
                  | "plus" => some (some (.int (wrap64 (a + b))), h2)
                  | "minus" => some (some (.int (wrap64 (a - b))), h2)
                  | "times" => some (some (.int (wrap64 (a * b))), h2)
                  | "divided" =>
                    if b = 0 then some (some (.error "division by zero"), h2)
                    else some (some (.int (wrap64 (a.tdiv b))), h2)
                  | _ => some (some (.int 0), h2)
                | _ =>
                  some (some (.error
                    ("arithmetic operations require integers, got " ++
                      typeNameR right)), h2)
              | _ =>
                some (some (.error
                  ("arithmetic operations require integers, got " ++
                    typeNameR left)), h2)
  termination_by structural fuel

def evalCallExpression (fuel : Nat) (fname : String) (args : List Expr)
    (env : Nat) (heap : Heap) : EvalR :=
  match fuel with
  | 0 => none
  | n + 1 =>
    match envGet heap env fname with
    | none => some (some (.error ("function not defined: " ++ fname)), heap)
    | some fnObj =>
      match fnObj with
      | some (.func ps body fenv) =>
        match evalExprList n args env heap with
        | none => none
        | some (.error e, h1) => some (some e, h1)
        | some (.ok vs, h1) =>
          let extendedEnv := h1.length
          let h2 := h1 ++ [⟨bindParameters ps vs, some fenv⟩]
          match evalBlockStatement n body extendedEnv h2 with
          | none => none
          | some (some (.retVal v), h3) => some (v, h3)
          | some (r, h3) => some (r, h3)
      | _ => some (some (.error (fname ++ " is not a function")), heap)
  termination_by structural fuel

def evalLengthExpression (fuel : Nat) (e : Expr) (env : Nat) (heap : Heap) :
    EvalR :=
  match fuel with
  | 0 => none
  | n + 1 =>
    match EvalExpr n e env heap with
    | none => none
    | some (val, h1) =>
      if isError val then some (val, h1)
      else
        match val with
        | some (.list es) => some (some (.int es.length), h1)
        | some (.str s) => some (some (.int (utf8Bytes s).length), h1)
        | _ =>
          some (some (.error ("length requires a list or string, got " ++
            typeNameR val)), h1)
  termination_by structural fuel

def evalIndexExpression (fuel : Nat) (iE : Expr) (lE : Expr) (env : Nat)
    (heap : Heap) : EvalR :=
  match fuel with
  | 0 => none
  | n + 1 =>
    match EvalExpr n iE env heap with
    | none => none
    | some (idx, h1) =>
      if isError idx then some (idx, h1)
      else
        match EvalExpr n lE env h1 with
        | none => none
        | some (lst, h2) =>
          if isError lst then some (lst, h2)
          else
            match idx with
            | some (.int i) =>
              match lst with
              | some (.list es) =>
                if i < 1 || i > (es.length : Int) then
                  some (some (.error ("index out of bounds: " ++ toString i ++
                    " (list has " ++ toString es.length ++ " elements)")), h2)
                else some (es.getD ((i - 1).toNat) none, h2)
              | some (.str s) =>
                if i < 1 || i > ((utf8Bytes s).length : Int) then
                  some (some (.error ("index out of bounds: " ++ toString i ++
                    " (string has " ++ toString (utf8Bytes s).length ++
                    " characters)")), h2)
                else
                  some (some (.str (String.singleton (Char.ofNat
                    ((utf8Bytes s).getD ((i - 1).toNat) 0)))), h2)
              | _ =>
                some (some (.error
                  ("indexing requires a list or string, got " ++
                    typeNameR lst)), h2)
            | _ =>
              some (some (.error ("index must be an integer, got " ++
                typeNameR idx)), h2)
  termination_by structural fuel

def evalBodyOfExpression (fuel : Nat) (e : Expr) (env : Nat) (heap : Heap) :
    EvalR :=
  match fuel with
  | 0 => none
  | n + 1 =>
    match EvalExpr n e env heap with
    | none => none
    | some (respObj, h1) =>
      if isError respObj then some (respObj, h1)
      else
        match respObj with
        | some (.response _ b _) => some (some (.str b), h1)
        | some (.request _ _ b _ _) => some (some (.str b), h1)
        | _ =>
          some (some (.error ("body of requires a response or request, got " ++
            typeNameR respObj)), h1)
  termination_by structural fuel

def evalStatusOfExpression (fuel : Nat) (e : Expr) (env : Nat) (heap : Heap) :
    EvalR :=
  match fuel with
  | 0 => none
  | n + 1 =>
    match EvalExpr n e env heap with
    | none => none
    | some (respObj, h1) =>
      if isError respObj then some (respObj, h1)
      else
        match respObj with
        | some (.response st _ _) => some (some (.int st), h1)
        | _ =>
          some (some (.error ("status of requires a response, got " ++
            typeNameR respObj)), h1)
  termination_by structural fuel

def evalHeaderFromExpression (fuel : Nat) (hE : Expr) (rE : Expr) (env : Nat)
    (heap : Heap) : EvalR :=
  match fuel with
  | 0 => none
  | n + 1 =>
    match EvalExpr n hE env heap with
    | none => none
    | some (hName, h1) =>
      if isError hName then some (hName, h1)
      else
        match hName with
        | some (.str hs) =>
          match EvalExpr n rE env h1 with
          | none => none
          | some (respObj, h2) =>
            if isError respObj then some (respObj, h2)
            else
              match respObj with
              | some (.response _ _ headers) =>
                match lookupStr headers hs with
                | some v => some (some (.str v), h2)
                | none => some (some .null, h2)
              | some (.request _ _ _ headers _) =>
                match lookupStr headers hs with
                | some v => some (some (.str v), h2)
                | none => some (some .null, h2)
              | _ =>
                some (some (.error
                  ("header from requires a response or request, got " ++
                    typeNameR respObj)), h2)
        | _ =>
          some (some (.error ("header name must be a string, got " ++
            typeNameR hName)), h1)
  termination_by structural fuel

def evalFieldFromExpression (fuel : Nat) (fE : Expr) (sE : Expr) (env : Nat)
    (heap : Heap) : EvalR :=
  match fuel with
  | 0 => none
  | n + 1 =>
    match EvalExpr n fE env heap with
    | none => none
    | some (fName, h1) =>
      if isError fName then some (fName, h1)
      else
        match fName with
        | some (.str fs) =>
          match EvalExpr n sE env h1 with
          | none => none
          | some (source, h2) =>
            if isError source then some (source, h2)
            else
              match source with
              | some (.json v) => some (some (getJsonField v fs), h2)
              | _ =>
                some (some (.error ("field from requires a json object, got " ++
                  typeNameR source)), h2)
        | _ =>
          some (some (.error ("field name must be a string, got " ++
            typeNameR fName)), h1)
  termination_by structural fuel

def evalMethodOfExpression (fuel : Nat) (e : Expr) (env : Nat) (heap : Heap) :
    EvalR :=
  match fuel with
  | 0 => none
  | n + 1 =>
    match EvalExpr n e env heap with
    | none => none
    | some (reqObj, h1) =>
      if isError reqObj then some (reqObj, h1)
      else
        match reqObj with
        | some (.request m _ _ _ _) => some (some (.str m), h1)
        | _ =>
          some (some (.error ("method of requires a request, got " ++
            typeNameR reqObj)), h1)
  termination_by structural fuel

def evalPathOfExpression (fuel : Nat) (e : Expr) (env : Nat) (heap : Heap) :
    EvalR :=
  match fuel with
  | 0 => none
  | n + 1 =>
    match EvalExpr n e env heap with
    | none => none
    | some (reqObj, h1) =>
      if isError reqObj then some (reqObj, h1)
      else
        match reqObj with
        | some (.request _ p _ _ _) => some (some (.str p), h1)
        | _ =>
          some (some (.error ("path of requires a request, got " ++
            typeNameR reqObj)), h1)
  termination_by structural fuel

def evalQueryFromExpression (fuel : Nat) (qE : Expr) (rE : Expr) (env : Nat)
    (heap : Heap) : EvalR :=
  match fuel with
  | 0 => none
  | n + 1 =>
    match EvalExpr n qE env heap with
    | none => none
    | some (qName, h1) =>
      if isError qName then some (qName, h1)
      else
        match qName with
        | some (.str qs) =>
          match EvalExpr n rE env h1 with
          | none => none
          | some (reqObj, h2) =>
            if isError reqObj then some (reqObj, h2)
            else
              match reqObj with
              | some (.request _ _ _ _ query) =>
                match lookupStr query qs with
                | some v => some (some (.str v), h2)
                | none => some (some .null, h2)
              | _ =>
                some (some (.error ("query from requires a request, got " ++
                  typeNameR reqObj)), h2)
        | _ =>
          some (some (.error ("query name must be a string, got " ++
            typeNameR qName)), h1)
  termination_by structural fuel

end

/-- evalProgram: statements in order; a top-level ReturnValue is unwrapped
to its payload, an Error halts the program. -/
def evalProgram (fuel : Nat) (stmts : List Stmt) (env : Nat) (heap : Heap) :
    EvalR :=
  match fuel with
  | 0 => none
  | n + 1 =>
    match stmts with
    | [] => some (none, heap)
    | s :: rest =>
      match EvalStmt n s env heap with
      | none => none
      | some (some (.retVal v), h) => some (v, h)
      | some (some (.error m), h) => some (some (.error m), h)
      | some (r, h) =>
        match rest with
        | [] => some (r, h)
        | _ => evalProgram n rest env h

/-! ## The parser (package parser)

The Go parser holds a lexer plus `curToken` / `peekToken`; the model
carries the two lookahead tokens and the remaining token stream (the
lexer yields `EOF` forever once exhausted).  Each parse function
returns the parsed node (`none` for the Go `nil` node returned on a
malformed production) and the advanced parser state; the outer `Option`
is fuel exhaustion, one unit per call, keeping the family structurally
recursive. -/

structure PState where
  cur : Token
  peek : Token
  rest : List Token
  errors : List String
  deriving Repr

/-- Parser.nextToken. -/
def nextToken (p : PState) : PState :=
  { cur := p.peek, peek := p.rest.headD eofTok, rest := p.rest.tail,
    errors := p.errors }

/-- parser.New: prime curToken and peekToken with two shifts. -/
def pInit (ts : List Token) : PState :=
  nextToken (nextToken ⟨eofTok, eofTok, ts, []⟩)

/-- Parser.peekError. -/
def peekError (t : TokType) (p : PState) : PState :=
  { p with errors := p.errors ++
      ["line " ++ toString p.peek.line ++ ": expected next token to be " ++
       t.str ++ ", got " ++ p.peek.type.str ++ " instead"] }

/-- Parser.expectPeek. -/
def expectPeek (t : TokType) (p : PState) : Bool × PState :=
  if p.peek.type = t then (true, nextToken p)
  else (false, peekError t p)

/-- Decimal digit accumulation over a lexeme's characters. -/
def digitsToNatAux : List Char → Nat → Option Nat
  | [], acc => some acc
  | c :: cs, acc =>
    if c.isDigit then digitsToNatAux cs (acc * 10 + (c.toNat - 48))
    else none

/-- strconv.ParseInt(lit, 10, 64) as used on NUMBER lexemes (the lexer
only produces nonempty digit runs; out-of-range values are an error). -/
def parseIntLit (s : String) : Option Int :=
  match s.data with
  | [] => none
  | cs =>
    match digitsToNatAux cs 0 with
    | some v => if In64 v then some (v : Int) else none
    | none => none

/-- One iteration of parseCompoundNumber's accumulator update for the
number word `w` (the body of the loop in parseCompoundNumber). -/
def numberWordStep (w : TokType) (total current : Int) : Int × Int :=
  if IsMultiplier w then
    let c := if current = 0 then 1 else current
    if w = .MILLION then (wrap64 (total + wrap64 (c * NumberWordValue w)), 0)
    else if w = .THOUSAND then (wrap64 (total + wrap64 (c * NumberWordValue w)), 0)
    else (total, wrap64 (c * NumberWordValue w))
  else (total, wrap64 (current + NumberWordValue w))

abbrev PRes := Option (Option Expr × PState)

set_option maxHeartbeats 3200000 in
mutual

def parseExpression (fuel : Nat) (p : PState) : PRes :=
  match fuel with
  | 0 => none
  | n + 1 => parseArithmeticExpression n p

def parseCondition (fuel : Nat) (p : PState) : PRes :=
  match fuel with
  | 0 => none
  | n + 1 => parseLogicalOr n p

def parseLogicalOr (fuel : Nat) (p : PState) : PRes :=
  match fuel with
  | 0 => none
  | n + 1 =>
    match parseLogicalAnd n p with
    | none => none
    | some (left, p1) => parseLogicalOrLoop n left p1

def parseLogicalOrLoop (fuel : Nat) (left : Option Expr) (p : PState) : PRes :=
  match fuel with
  | 0 => none
  | n + 1 =>
    if p.peek.type = .OR then
      let p1 := nextToken (nextToken p)
      match parseLogicalAnd n p1 with
      | none => none
      | some (right, p2) =>
        parseLogicalOrLoop n (some (.logical left "or" (right.getD .enil))) p2
    else some (left, p)
  termination_by structural fuel

def parseLogicalAnd (fuel : Nat) (p : PState) : PRes :=
  match fuel with
  | 0 => none
  | n + 1 =>
    match parseLogicalNot n p with
    | none => none
    | some (left, p1) => parseLogicalAndLoop n left p1

def parseLogicalAndLoop (fuel : Nat) (left : Option Expr) (p : PState) :
    PRes :=
  match fuel with
  | 0 => none
  | n + 1 =>
    if p.peek.type = .AND then
      let p1 := nextToken (nextToken p)
      match parseLogicalNot n p1 with
      | none => none
      | some (right, p2) =>
        parseLogicalAndLoop n (some (.logical left "and" (right.getD .enil))) p2
    else some (left, p)
  termination_by structural fuel

def parseLogicalNot (fuel : Nat) (p : PState) : PRes :=
  match fuel with
  | 0 => none
  | n + 1 =>
    if p.cur.type = .NOT then
      let p1 := nextToken p
      match parseLogicalNot n p1 with
      | none => none
      | some (right, p2) =>
        some (some (.logical none "not" (right.getD .enil)), p2)
    else parseComparison n p
  termination_by structural fuel

def parseComparison (fuel : Nat) (p : PState) : PRes :=
  match fuel with
  | 0 => none
  | n + 1 =>
    match parseArithmeticExpression n p with
    | none => none
    | some (left, p1) =>
      if p1.peek.type = .EQUALS then
        let p2 := nextToken (nextToken p1)
        match parseArithmeticExpression n p2 with
        | none => none
        | some (right, p3) =>
          some (some (.cmp (left.getD .enil) "equals" (right.getD .enil)), p3)
      else if p1.peek.type = .IS then
        let p2 := nextToken p1
        if p2.peek.type = .GREATER then
          let p3 := nextToken p2
          match expectPeek .THAN p3 with
          | (false, p4) => some (none, p4)
          | (true, p4) =>
            let p5 := nextToken p4
            match parseArithmeticExpression n p5 with
            | none => none
            | some (right, p6) =>
              some (some (.cmp (left.getD .enil) "greater"
                (right.getD .enil)), p6)
        else if p2.peek.type = .LESS then
          let p3 := nextToken p2
          match expectPeek .THAN p3 with
          | (false, p4) => some (none, p4)
          | (true, p4) =>
            let p5 := nextToken p4
            match parseArithmeticExpression n p5 with
            | none => none
            | some (right, p6) =>
              some (some (.cmp (left.getD .enil) "less"
                (right.getD .enil)), p6)
        else some (left, p2)
      else some (left, p1)

def parseArithmeticExpression (fuel : Nat) (p : PState) : PRes :=
  match fuel with
  | 0 => none
  | n + 1 =>
    match parseTerm n p with
    | none => none
    | some (left, p1) => parseArithmeticLoop n left p1

def parseArithmeticLoop (fuel : Nat) (left : Option Expr) (p : PState) :
    PRes :=
  match fuel with
  | 0 => none
  | n + 1 =>
    if p.peek.type = .PLUS || p.peek.type = .MINUS then
      let p1 := nextToken p
      let op := p1.cur.literal
      let p2 := nextToken p1
      match parseTerm n p2 with
      | none => none
      | some (right, p3) =>
        parseArithmeticLoop n
          (some (.arith (left.getD .enil) op (right.getD .enil))) p3
    else some (left, p)
  termination_by structural fuel

def parseTerm (fuel : Nat) (p : PState) : PRes :=
  match fuel with
  | 0 => none
  | n + 1 =>
    match parsePrimary n p with
    | none => none
    | some (left, p1) => parseTermLoop n left p1

def parseTermLoop (fuel : Nat) (left : Option Expr) (p : PState) : PRes :=
  match fuel with
  | 0 => none
  | n + 1 =>
    if p.peek.type = .TIMES || p.peek.type = .DIVIDED then
      let p1 := nextToken p
      let op := p1.cur.literal
      if op = "divided" then
        match expectPeek .BY p1 with
        | (false, p2) => some (none, p2)
        | (true, p2) =>
          let p3 := nextToken p2
          match parsePrimary n p3 with
          | none => none
          | some (right, p4) =>
            parseTermLoop n
              (some (.arith (left.getD .enil) op (right.getD .enil))) p4
      else
        let p2 := nextToken p1
        match parsePrimary n p2 with
        | none => none
        | some (right, p3) =>
          parseTermLoop n
            (some (.arith (left.getD .enil) op (right.getD .enil))) p3
    else some (left, p)
  termination_by structural fuel

def parsePrimary (fuel : Nat) (p : PState) : PRes :=
  match fuel with
  | 0 => none
  | n + 1 =>
    if p.cur.type = .MINUS then
      let p1 := nextToken p
      match parsePrimary n p1 with
      | none => none
      | some (value, p2) => some (some (.negative (value.getD .enil)), p2)
    else if p.cur.type = .STRING then
      some (some (.strLit p.cur.literal), p)
    else if p.cur.type = .A && p.peek.type = .LIST then
      parseListLiteral n p
    else if p.cur.type = .LENGTH && p.peek.type = .OF then
      parseLengthExpression n p
    else if p.cur.type = .ITEM then
      parseIndexExpression n p
    else if p.cur.type = .BODY && p.peek.type = .OF then
      parseBodyOfExpression n p
    else if p.cur.type = .STATUS && p.peek.type = .OF then
      parseStatusOfExpression n p
    else if p.cur.type = .HEADER then
      parseHeaderFromExpression n p
    else if p.cur.type = .FIELD then
      parseFieldFromExpression n p
    else if p.cur.type = .METHOD && p.peek.type = .OF then
      parseMethodOfExpression n p
    else if p.cur.type = .PATH && p.peek.type = .OF then
      parsePathOfExpression n p
    else if p.cur.type = .QUERY then
      parseQueryFromExpression n p
    else if IsNumberWord p.cur.type then
      parseNumberWord n p
    else if p.cur.type = .NUMBER then
      match parseIntLit p.cur.literal with
      | some v => some (some (.intLit v p.cur.literal), p)
      | none =>
        some (none, { p with errors := p.errors ++
          ["could not parse " ++ goQuote p.cur.literal ++ " as integer"] })
    else if p.cur.type = .IDENT then
      if p.peek.type = .WITH then parseCallExpression n p.cur.literal p
      else some (some (.ident p.cur.literal), p)
    else some (none, p)
  termination_by structural fuel

def parseCallExpression (fuel : Nat) (fn : String) (p : PState) : PRes :=
  match fuel with
  | 0 => none
  | n + 1 =>
    let p1 := nextToken (nextToken p)
    match parsePrimary n p1 with
    | none => none
    | some (arg, p2) => parseCallArgsLoop n fn [arg.getD .enil] p2
  termination_by structural fuel

def parseCallArgsLoop (fuel : Nat) (fn : String) (args : List Expr)
    (p : PState) : PRes :=
  match fuel with
  | 0 => none
  | n + 1 =>
    if p.peek.type = .AND then
      let p1 := nextToken (nextToken p)
      match parsePrimary n p1 with
      | none => none
      | some (arg, p2) => parseCallArgsLoop n fn (args ++ [arg.getD .enil]) p2
    else some (some (.callE fn args), p)
  termination_by structural fuel

def parseListLiteral (fuel : Nat) (p : PState) : PRes :=
  match fuel with
  | 0 => none
  | n + 1 =>
    match expectPeek .LIST p with
    | (false, p1) => some (none, p1)
    | (true, p1) =>
      match expectPeek .OF p1 with
      | (false, p2) => some (none, p2)
      | (true, p2) =>
        let p3 := nextToken p2
        match parsePrimary n p3 with
        | none => none
        | some (elem, p4) => parseListElemsLoop n [elem.getD .enil] p4
  termination_by structural fuel

def parseListElemsLoop (fuel : Nat) (elems : List Expr) (p : PState) : PRes :=
  match fuel with
  | 0 => none
  | n + 1 =>
    if p.peek.type = .AND then
      let p1 := nextToken (nextToken p)
      match parsePrimary n p1 with
      | none => none
      | some (elem, p2) => parseListElemsLoop n (elems ++ [elem.getD .enil]) p2
    else some (some (.listLit elems), p)
  termination_by structural fuel

def parseNumberWord (fuel : Nat) (p : PState) : PRes :=
  match fuel with
  | 0 => none
  | n + 1 =>
    let startLit := p.cur.literal
    match parseCompoundNumber n p with
    | none => none
    | some (value, p1) => some (some (.intLit value startLit), p1)

def parseCompoundNumber (fuel : Nat) (p : PState) :
    Option (Int × PState) :=
  match fuel with
  | 0 => none
  | n + 1 => parseCompoundLoop n p 0 0

def parseCompoundLoop (fuel : Nat) (p : PState) (total current : Int) :
    Option (Int × PState) :=
  match fuel with
  | 0 => none
  | n + 1 =>
    if IsNumberWord p.cur.type then
      let tc := numberWordStep p.cur.type total current
      if IsNumberWord p.peek.type then parseCompoundLoop n (nextToken p) tc.1 tc.2
      else some (wrap64 (tc.1 + tc.2), p)
    else some (wrap64 (total + current), p)
  termination_by structural fuel

def parseLengthExpression (fuel : Nat) (p : PState) : PRes :=
  match fuel with
  | 0 => none
  | n + 1 =>
    let p1 := nextToken (nextToken p)
    match parsePrimary n p1 with
    | none => none
    | some (l, p2) => some (some (.lengthOf (l.getD .enil)), p2)
  termination_by structural fuel

def parseIndexExpression (fuel : Nat) (p : PState) : PRes :=
  match fuel with
  | 0 => none
  | n + 1 =>
    let p1 := nextToken p
    match parsePrimary n p1 with
    | none => none
    | some (idx, p2) =>
      match expectPeek .FROM p2 with
      | (false, p3) => some (none, p3)
      | (true, p3) =>
        let p4 := nextToken p3
        match parsePrimary n p4 with
        | none => none
        | some (l, p5) =>
          some (some (.index (idx.getD .enil) (l.getD .enil)), p5)
  termination_by structural fuel

def parseBodyOfExpression (fuel : Nat) (p : PState) : PRes :=
  match fuel with
  | 0 => none
  | n + 1 =>
    let p1 := nextToken (nextToken p)
    match parsePrimary n p1 with
    | none => none
    | some (r, p2) => some (some (.bodyOf (r.getD .enil)), p2)
  termination_by structural fuel

def parseStatusOfExpression (fuel : Nat) (p : PState) : PRes :=
  match fuel with
  | 0 => none
  | n + 1 =>
    let p1 := nextToken (nextToken p)
    match parsePrimary n p1 with
    | none => none
    | some (r, p2) => some (some (.statusOf (r.getD .enil)), p2)
  termination_by structural fuel

def parseHeaderFromExpression (fuel : Nat) (p : PState) : PRes :=
  match fuel with
  | 0 => none
  | n + 1 =>
    let p1 := nextToken p
    match parsePrimary n p1 with
    | none => none
    | some (hn, p2) =>
      match expectPeek .FROM p2 with
      | (false, p3) => some (none, p3)
      | (true, p3) =>
        let p4 := nextToken p3
        match parsePrimary n p4 with
        | none => none
        | some (r, p5) =>
          some (some (.headerFrom (hn.getD .enil) (r.getD .enil)), p5)
  termination_by structural fuel

def parseFieldFromExpression (fuel : Nat) (p : PState) : PRes :=
  match fuel with
  | 0 => none
  | n + 1 =>
    let p1 := nextToken p
    match parsePrimary n p1 with
    | none => none
    | some (fn, p2) =>
      match expectPeek .FROM p2 with
      | (false, p3) => some (none, p3)
      | (true, p3) =>
        let p4 := nextToken p3
        match parsePrimary n p4 with
        | none => none
        | some (s, p5) =>
          some (some (.fieldFrom (fn.getD .enil) (s.getD .enil)), p5)
  termination_by structural fuel

def parseMethodOfExpression (fuel : Nat) (p : PState) : PRes :=
  match fuel with
  | 0 => none
  | n + 1 =>
    let p1 := nextToken (nextToken p)
    match parsePrimary n p1 with
    | none => none
    | some (r, p2) => some (some (.methodOf (r.getD .enil)), p2)
  termination_by structural fuel

def parsePathOfExpression (fuel : Nat) (p : PState) : PRes :=
  match fuel with
  | 0 => none
  | n + 1 =>
    let p1 := nextToken (nextToken p)
    match parsePrimary n p1 with
    | none => none
    | some (r, p2) => some (some (.pathOf (r.getD .enil)), p2)
  termination_by structural fuel

def parseQueryFromExpression (fuel : Nat) (p : PState) : PRes :=
  match fuel with
  | 0 => none
  | n + 1 =>
    let p1 := nextToken p
    match parsePrimary n p1 with
    | none => none
    | some (qn, p2) =>
      match expectPeek .FROM p2 with
      | (false, p3) => some (none, p3)
      | (true, p3) =>
        let p4 := nextToken p3
        match parsePrimary n p4 with
        | none => none
        | some (r, p5) =>
          some (some (.queryFrom (qn.getD .enil) (r.getD .enil)), p5)
  termination_by structural fuel

end

/-- parseSetStatement: `set <ident> to <expression>`; the value position
parses with parseExpression. -/
def parseSetStatement (fuel : Nat) (p : PState) :
    Option (Option Stmt × PState) :=
  match fuel with
  | 0 => none
  | n + 1 =>
    match expectPeek .IDENT p with
    | (false, p1) => some (none, p1)
    | (true, p1) =>
      let name := p1.cur.literal
      match expectPeek .TO p1 with
      | (false, p2) => some (none, p2)
      | (true, p2) =>
        let p3 := nextToken p2
        match parseExpression n p3 with
        | none => none
        | some (value, p4) => some (some (.set name (value.getD .enil)), p4)

/-! ## Server dispatch (interpreter.go, web server section)

`RouteHandler` mirrors the registry entry struct; an incoming request is
carried as `RequestData` (method, URL path, body, and the first-value
header/query maps the Go code extracts from the host http.Request).
`handleIncomingRequest` walks the port's route list in registration
order, runs the first matching handler, and writes the wire response;
with no match it writes 404 / `Not Found`. -/

structure RouteHandler where
  method : String
  path : String
  body : List Stmt
  requestVar : String
  handlerEnv : Nat
  handlerFn : Option (List String × List Stmt × Nat)

structure RequestData where
  method : String
  path : String
  body : String
  headers : List (String × String)
  query : List (String × String)

/-- matchRoute: the method matches when the route's method is empty or
equal; the path must be exactly equal (no wildcards). -/
def matchRoute (route : RouteHandler) (r : RequestData) : Bool :=
  if route.method ≠ "" && route.method ≠ r.method then false
  else route.path = r.path

/-- The selection made by handleIncomingRequest's loop: the first route
in registration order that matches. -/
def findRoute : List RouteHandler → RequestData → Option RouteHandler
  | [], _ => none
  | rt :: rest, r => if matchRoute rt r then some rt else findRoute rest r

/-- The object.Request value built for a matched request. -/
def requestObj (r : RequestData) : Obj :=
  .request r.method r.path r.body r.headers r.query

/-- Handler invocation: a function-reference handler gets a fresh
environment enclosing the function's captured environment with the
request bound to its first parameter (if any); an inline block handler
gets a fresh environment enclosing the registration environment with
the request bound to the `using` variable (if any).  A ReturnValue
result is unwrapped. -/
def runRouteHandler (fuel : Nat) (route : RouteHandler) (req : Obj)
    (heap : Heap) : EvalR :=
  match route.handlerFn with
  | some (ps, fbody, fenv) =>
    let extendedEnv := heap.length
    let h1 := NewEnclosedEnvironment heap fenv
    let h2 :=
      match ps with
      | [] => h1
      | p0 :: _ => envSet h1 extendedEnv p0 (some req)
    match evalBlockStatement fuel fbody extendedEnv h2 with
    | none => none
    | some (some (.retVal v), h3) => some (v, h3)
    | some (res, h3) => some (res, h3)
  | none =>
    let handlerScope := heap.length
    let h1 := NewEnclosedEnvironment heap route.handlerEnv
    let h2 :=
      if route.requestVar ≠ "" then
        envSet h1 handlerScope route.requestVar (some req)
      else h1
    match evalBlockStatement fuel route.body handlerScope h2 with
    | none => none
    | some (some (.retVal v), h3) => some (v, h3)
    | some (res, h3) => some (res, h3)

structure WireResponse where
  status : Int
  body : String
  headers : List (String × String)

/-- The response-writing tail of handleIncomingRequest: a ReplyValue
result writes its headers, status, and body; any other result writes
status 200 and its Inspect text (a Go nil result writes no body). -/
def writeHandlerResult (result : Option Obj) : WireResponse :=
  match result with
  | some (.reply st b hs) => ⟨st, b, hs⟩
  | some v => ⟨200, v.inspect, []⟩
  | none => ⟨200, "", []⟩

/-- handleIncomingRequest over the port's registered route list. -/
def handleIncomingRequest (fuel : Nat) (routes : List RouteHandler)
    (r : RequestData) (heap : Heap) : Option (WireResponse × Heap) :=
  match findRoute routes r with
  | some route =>
    match runRouteHandler fuel route (requestObj r) heap with
    | none => none
    | some (result, h) => some (writeHandlerResult result, h)
  | none => some (⟨404, "Not Found", []⟩, heap)

/-! ## The JSON round-trip domain -/

mutual

/-- The value domain of the round-trip property: Integer, String,
Boolean, Null, and Lists of those (with no Go-nil slots). -/
def inJsonDomain : Obj → Bool
  | .int _ => true
  | .str _ => true
  | .bool _ => true
  | .null => true
  | .list es => inJsonDomainList es
  | _ => false

def inJsonDomainList : List (Option Obj) → Bool
  | [] => true
  | some o :: es => inJsonDomain o && inJsonDomainList es
  | none :: _ => false

end

/-! ## Claim C1: the expression production at general expression positions -/

/-- A keyword-faithful token stream for the expression `1 equals 2`. -/
def c1Tokens : List Token :=
  [⟨.NUMBER, "1", 1, 0⟩, ⟨.EQUALS, "equals", 1, 0⟩, ⟨.NUMBER, "2", 1, 0⟩]

/-- A token stream for the statement `set x to 1 equals 2`. -/
def c1SetTokens : List Token :=
  [⟨.SET, "set", 1, 0⟩, ⟨.IDENT, "x", 1, 0⟩, ⟨.TO, "to", 1, 0⟩,
   ⟨.NUMBER, "1", 1, 0⟩, ⟨.EQUALS, "equals", 1, 0⟩, ⟨.NUMBER, "2", 1, 0⟩]

set_option maxRecDepth 4000 in
/-- Claim C1 is false on the code: at a general expression position the
parser does not accept `equals` (or any comparison/logical operator).
On the stream `1 equals 2`, parseExpression — the production used for
`set` values, `say` operands, `return` values, and every other
expression position — yields the bare IntegerLiteral 1 and leaves
`equals` unconsumed in the lookahead, while parseCondition (used only
for `if`/`while`) yields the ComparisonExpression; a whole
`set x to 1 equals 2` statement therefore binds `x` to the literal 1. -/
theorem claim1_expression_entry_counterexample :
    (parseExpression 20 (pInit c1Tokens)).map Prod.fst
        = some (some (.intLit 1 "1"))
      ∧ (parseExpression 20 (pInit c1Tokens)).map (fun r => r.2.peek.type)
        = some .EQUALS
      ∧ (parseCondition 20 (pInit c1Tokens)).map Prod.fst
        = some (some (.cmp (.intLit 1 "1") "equals" (.intLit 2 "2")))
      ∧ (parseSetStatement 20 (pInit c1SetTokens)).map Prod.fst
        = some (some (.set "x" (.intLit 1 "1")))
      ∧ (some (Expr.intLit 1 "1")
          ≠ some (Expr.cmp (.intLit 1 "1") "equals" (.intLit 2 "2"))) := by
  refine ⟨rfl, rfl, rfl, rfl, ?_⟩
  simp

set_option maxRecDepth 4000 in
/-- Claim C1 amended: only `if`/`while` conditions use the
`logical-or` production (parseCondition); every other expression
position — the value of a `set`, a `say` operand, a `return` value, and
all other calls of parseExpression — parses only the additive
(arithmetic) level, so comparison and logical operators are not
accepted there.  The first two equations are the two entry points of
the grammar; the remaining equations witness the split concretely on
`1 equals 2`. -/
theorem claim1_expression_entry_amended :
    (∀ (fuel : Nat) (p : PState),
        parseExpression (fuel + 1) p = parseArithmeticExpression fuel p)
      ∧ (∀ (fuel : Nat) (p : PState),
        parseCondition (fuel + 1) p = parseLogicalOr fuel p)
      ∧ (parseExpression 20 (pInit c1Tokens)).map Prod.fst
          = some (some (.intLit 1 "1"))
      ∧ (parseCondition 20 (pInit c1Tokens)).map Prod.fst
          = some (some (.cmp (.intLit 1 "1") "equals" (.intLit 2 "2"))) := by
  exact ⟨fun fuel p => rfl, fun fuel p => rfl, rfl, rfl⟩

/-! ## Claim C5: compound number-word folding -/

/-- The type of the k-th upcoming token (cur, peek, then the stream,
extended by EOF forever, matching the lexer). -/
def streamTypes (p : PState) : Nat → TokType
  | 0 => p.cur.type
  | 1 => p.peek.type
  | k + 2 => ((p.rest.get? k).getD eofTok).type

theorem streamTypes_nextToken (p : PState) (k : Nat) :
    streamTypes (nextToken p) k = streamTypes p (k + 1) := by
  obtain ⟨c, pk, rest, errs⟩ := p
  match k with
  | 0 => rfl
  | 1 => cases rest <;> rfl
  | k + 2 => cases rest <;> simp [streamTypes, nextToken]

/-- The folding recipe exactly as the claim states it: two accumulators
`current` and `total`; a multiplier seen with `current == 0` first
treats `current` as 1; `hundred` multiplies `current` by 100;
`thousand` and `million` add `current` times their value to `total` and
reset `current`; any other number word adds its value to `current`; the
result is `total + current` (in int64 arithmetic). -/
def specFoldNumberWords : List TokType → Int → Int → Int
  | [], current, total => wrap64 (total + current)
  | w :: ws, current, total =>
    if IsMultiplier w then
      let c := if current = 0 then 1 else current
      if w = .HUNDRED then specFoldNumberWords ws (wrap64 (c * 100)) total
      else specFoldNumberWords ws 0 (wrap64 (total + wrap64 (c * NumberWordValue w)))
    else specFoldNumberWords ws (wrap64 (current + NumberWordValue w)) total

theorem isMultiplier_cases {w : TokType} (h : IsMultiplier w = true) :
    w = .HUNDRED ∨ w = .THOUSAND ∨ w = .MILLION := by
  unfold IsMultiplier at h
  simp at h
  tauto

theorem specFoldNumberWords_cons (w : TokType) (ws : List TokType)
    (current total : Int) :
    specFoldNumberWords (w :: ws) current total
      = specFoldNumberWords ws (numberWordStep w total current).2
          (numberWordStep w total current).1 := by
  by_cases hm : IsMultiplier w = true
  · rcases isMultiplier_cases hm with h | h | h <;> subst h <;>
      simp [specFoldNumberWords, numberWordStep, NumberWordValue, IsMultiplier]
  · simp [specFoldNumberWords, numberWordStep, hm]

theorem parseCompoundLoop_spec :
    ∀ (run : List TokType) (fuel : Nat) (p : PState) (total current : Int),
      run ≠ [] →
      (∀ k, (hk : k < run.length) → streamTypes p k = run.get ⟨k, hk⟩) →
      (∀ t ∈ run, IsNumberWord t = true) →
      IsNumberWord (streamTypes p run.length) = false →
      run.length ≤ fuel →
      (parseCompoundLoop fuel p total current).map Prod.fst
        = some (specFoldNumberWords run current total) := by
  intro run
  induction run with
  | nil => intro _ _ _ _ hne; exact absurd rfl hne
  | cons w ws ih =>
    intro fuel p total current _ hstream hall hbound hfuel
    cases fuel with
    | zero => simp at hfuel
    | succ f =>
      have hcur : p.cur.type = w := hstream 0 (by simp)
      have hNWw : IsNumberWord w = true := hall w (by simp)
      rw [specFoldNumberWords_cons]
      cases ws with
      | nil =>
        have hpeek : IsNumberWord p.peek.type = false := by
          have h1 : streamTypes p 1 = p.peek.type := rfl
          rw [← h1]; exact hbound
        simp [parseCompoundLoop, hcur, hNWw, hpeek, specFoldNumberWords]
      | cons w2 ws2 =>
        have hpeek : p.peek.type = w2 := hstream 1 (by simp)
        have hNWw2 : IsNumberWord w2 = true := hall w2 (by simp)
        have hstep : ∀ total2 current2 : Int,
            (parseCompoundLoop f (nextToken p) total2 current2).map Prod.fst
              = some (specFoldNumberWords (w2 :: ws2) current2 total2) := by
          intro total2 current2
          apply ih f (nextToken p) total2 current2 (by simp)
          · intro k hk
            rw [streamTypes_nextToken]
            exact hstream (k + 1) (by simpa using hk)
          · intro t ht; exact hall t (by simp [ht])
          · rw [streamTypes_nextToken]; exact hbound
          · simp only [List.length_cons] at hfuel ⊢; omega
        simp only [parseCompoundLoop, hcur, hNWw, hpeek, hNWw2, if_true]
        exact hstep (numberWordStep w total current).1
          (numberWordStep w total current).2

def c5TokensFortyTwo : List Token :=
  [⟨.FORTY, "forty", 1, 0⟩, ⟨.TWO, "two", 1, 0⟩]

def c5Tokens123 : List Token :=
  [⟨.ONE, "one", 1, 0⟩, ⟨.HUNDRED, "hundred", 1, 0⟩,
   ⟨.TWENTY, "twenty", 1, 0⟩, ⟨.THREE, "three", 1, 0⟩]

def c5TokensMillion : List Token :=
  [⟨.ONE, "one", 1, 0⟩, ⟨.MILLION, "million", 1, 0⟩]

def c5TokensMillionOne : List Token :=
  [⟨.ONE, "one", 1, 0⟩, ⟨.MILLION, "million", 1, 0⟩, ⟨.ONE, "one", 1, 0⟩]

set_option maxRecDepth 4000 in
/-- Claim C5: a maximal run of number-word tokens folds into one
integer by the stated two-accumulator recipe (parseCompoundNumber
refines specFoldNumberWords started at current = total = 0), and
consequently `one hundred twenty three` parses to 123, `one million`
to 1000000, and `one million one` to 1000001. -/
theorem claim5_compound_numbers :
    (∀ (run : List TokType) (fuel : Nat) (p : PState),
        run ≠ [] →
        (∀ k, (hk : k < run.length) → streamTypes p k = run.get ⟨k, hk⟩) →
        (∀ t ∈ run, IsNumberWord t = true) →
        IsNumberWord (streamTypes p run.length) = false →
        run.length + 1 ≤ fuel →
        (parseCompoundNumber fuel p).map Prod.fst
          = some (specFoldNumberWords run 0 0))
      ∧ (parseExpression 20 (pInit c5Tokens123)).map Prod.fst
          = some (some (.intLit 123 "one"))
      ∧ (parseExpression 20 (pInit c5TokensMillion)).map Prod.fst
          = some (some (.intLit 1000000 "one"))
      ∧ (parseExpression 20 (pInit c5TokensMillionOne)).map Prod.fst
          = some (some (.intLit 1000001 "one")) := by
  refine ⟨?_, rfl, rfl, rfl⟩
  intro run fuel p hne hstream hall hbound hfuel
  cases fuel with
  | zero => simp at hfuel
  | succ f =>
    have h1 : parseCompoundNumber (f + 1) p = parseCompoundLoop f p 0 0 := rfl
    rw [h1]
    exact parseCompoundLoop_spec run f p 0 0 hne hstream hall hbound (by omega)

set_option maxRecDepth 4000 in
/-- Witness for claim C5's universally quantified part at the concrete
run `forty two`, which folds to 42. -/
theorem claim5_compound_numbers_witness :
    (parseCompoundNumber 3 (pInit c5TokensFortyTwo)).map Prod.fst
      = some 42 := by
  have h := claim5_compound_numbers.1 [.FORTY, .TWO] 3 (pInit c5TokensFortyTwo)
    (by simp)
    (by intro k hk
        match k with
        | 0 => rfl
        | 1 => rfl)
    (by decide) (by decide) (by decide)
  simpa using h

/-! ## Claim C8: `divided by` is truncated 64-bit signed division -/

theorem in64_tdiv {a b : Int} (ha : In64 a) (hb0 : b ≠ 0)
    (hover : ¬(a = -(2 ^ 63) ∧ b = -1)) : In64 (a.tdiv b) :=
  by
  have habs : (a.tdiv b).natAbs = a.natAbs / b.natAbs := Int.natAbs_tdiv a b
  by_cases hb2 : 2 ≤ b.natAbs
  · have h1 : a.natAbs / b.natAbs ≤ a.natAbs / 2 :=
      Nat.div_le_div_left hb2 (by omega)
    have h2 : a.natAbs / 2 ≤ 2 ^ 63 / 2 := by
      apply Nat.div_le_div_right
      unfold In64 at ha; omega
    have h3 : (a.tdiv b).natAbs < 2 ^ 63 := by
      rw [habs]
      calc a.natAbs / b.natAbs ≤ a.natAbs / 2 := h1
        _ ≤ 2 ^ 63 / 2 := h2
        _ < 2 ^ 63 := by norm_num
    unfold In64; omega
  · have hb1 : b.natAbs = 1 := by omega
    have : b = 1 ∨ b = -1 := by omega
    rcases this with h | h
    · subst h; simpa using ha
    · subst h
      have hne : a ≠ -(2 ^ 63) := fun hc => hover ⟨hc, rfl⟩
      have h1 : a.tdiv (-1) = -a := by simp
      rw [h1]; unfold In64 at ha ⊢; omega

/-- Claim C8: for int64 operands, `a divided by b` with b ≠ 0 evaluates
to the truncated-toward-zero 64-bit signed quotient (`wrap64 (a.tdiv b)`,
which differs from the exact truncated quotient only at the single
two's-complement overflow pair a = -2^63, b = -1); with b = 0 it
evaluates to the runtime error whose text is `division by zero`. -/
theorem claim8_division (n : Nat) (a b : Int) (la lb : String) (env : Nat)
    (heap : Heap) (ha : In64 a) (hb : In64 b) :
    (b ≠ 0 →
      EvalExpr (n + 3) (.arith (.intLit a la) "divided" (.intLit b lb)) env heap
        = some (some (.int (wrap64 (a.tdiv b))), heap)
      ∧ (¬(a = -(2 ^ 63) ∧ b = -1) → wrap64 (a.tdiv b) = a.tdiv b))
    ∧ (b = 0 →
      EvalExpr (n + 3) (.arith (.intLit a la) "divided" (.intLit b lb)) env heap
        = some (some (.error "division by zero"), heap)) := by
  constructor
  · intro hb0
    constructor
    · simp [EvalExpr, evalArithmeticExpression, isError, isStringR, hb0]
    · intro hover
      exact wrap64_eq_self (in64_tdiv ha hb0 hover)
  · intro hb0
    subst hb0
    simp [EvalExpr, evalArithmeticExpression, isError, isStringR]

/-- Witness for claim C8 at a = 7, b = -2 (quotient -3, truncation
toward zero) and at b = 0 (the division-by-zero error). -/
theorem claim8_division_witness :
    EvalExpr 3 (.arith (.intLit 7 "7") "divided" (.intLit (-2) "-2")) 0 []
        = some (some (.int (-3)), [])
      ∧ EvalExpr 3 (.arith (.intLit 7 "7") "divided" (.intLit 0 "0")) 0 []
        = some (some (.error "division by zero"), []) := by
  constructor
  · have h := (claim8_division 0 7 (-2) "7" "-2" 0 [] (by decide) (by decide)).1
      (by decide)
    have h2 := h.1
    simpa using h2
  · exact (claim8_division 0 7 0 "7" "0" 0 [] (by decide) (by decide)).2 rfl

/-! ## Claim C7: 1-based `item i from L` -/

/-- Claim C7: with `name` bound to a List L on the environment chain,
`item i from name` returns the i-th element (1-based) for
1 ≤ i ≤ length L, and yields the index-out-of-bounds error value for
any i outside that range — in particular for i = 1 on an empty list. -/
theorem claim7_item_index (n : Nat) (i : Int) (il : String)
    (L : List (Option Obj)) (name : String) (env : Nat) (heap : Heap)
    (h1 : name ≠ "null") (h2 : name ≠ "true") (h3 : name ≠ "false")
    (hbind : envGet heap env name = some (some (.list L))) :
    (1 ≤ i → i ≤ (L.length : Int) →
      EvalExpr (n + 3) (.index (.intLit i il) (.ident name)) env heap
        = some (L.getD ((i - 1).toNat) none, heap))
    ∧ ((i < 1 ∨ i > (L.length : Int)) →
      EvalExpr (n + 3) (.index (.intLit i il) (.ident name)) env heap
        = some (some (.error ("index out of bounds: " ++ toString i ++
            " (list has " ++ toString L.length ++ " elements)")), heap)) := by
  constructor
  · intro hge hle
    simp only [EvalExpr, evalIndexExpression, evalIdentifier, h1, h2, h3,
      hbind, isError, if_false, ite_false]
    simp [isError, h1, h2, h3, hbind]
    omega
  · intro hout
    simp only [EvalExpr, evalIndexExpression, evalIdentifier, h1, h2, h3,
      hbind, isError, if_false, ite_false]
    simp [isError, h1, h2, h3, hbind]
    omega

def c7Heap : Heap :=
  [⟨[("xs", some (.list [some (.int 7), some (.int 8)])),
     ("e", some (.list []))], none⟩]

/-- Witness for claim C7: on a two-element list, item 2 returns the
second element and item 3 errors; item 1 from an empty list errors. -/
theorem claim7_item_index_witness :
    EvalExpr 3 (.index (.intLit 2 "2") (.ident "xs")) 0 c7Heap
        = some (some (.int 8), c7Heap)
      ∧ EvalExpr 3 (.index (.intLit 3 "3") (.ident "xs")) 0 c7Heap
        = some (some (.error "index out of bounds: 3 (list has 2 elements)"),
            c7Heap)
      ∧ EvalExpr 3 (.index (.intLit 1 "1") (.ident "e")) 0 c7Heap
        = some (some (.error "index out of bounds: 1 (list has 0 elements)"),
            c7Heap) := by
  refine ⟨?_, ?_, ?_⟩
  · have h := (claim7_item_index 0 2 "2" [some (.int 7), some (.int 8)] "xs" 0
      c7Heap (by decide) (by decide) (by decide) rfl).1 (by decide) (by decide)
    simpa using h
  · have h := (claim7_item_index 0 3 "3" [some (.int 7), some (.int 8)] "xs" 0
      c7Heap (by decide) (by decide) (by decide) rfl).2 (by right; decide)
    simpa using h
  · have h := (claim7_item_index 0 1 "1" [] "e" 0
      c7Heap (by decide) (by decide) (by decide) rfl).2 (by right; decide)
    simpa using h

/-! ## Claim C2: encode-then-parse JSON round trip -/

mutual

theorem interfaceToObject_objectToInterface (v : Obj)
    (h : inJsonDomain v = true) :
    interfaceToObject (objectToInterface v) = v := by
  cases v with
  | int n => rfl
  | str s => rfl
  | bool b => cases b <;> rfl
  | null => rfl
  | list es =>
    have hes : inJsonDomainList es = true := by simpa [inJsonDomain] using h
    simp only [objectToInterface, interfaceToObject]
    rw [interfaceToObjectList_objectToInterfaceList es hes]
  | retVal v => simp [inJsonDomain] at h
  | error m => simp [inJsonDomain] at h
  | func a b c => simp [inJsonDomain] at h
  | response a b c => simp [inJsonDomain] at h
  | request a b c d e => simp [inJsonDomain] at h
  | json j => simp [inJsonDomain] at h
  | reply a b c => simp [inJsonDomain] at h

theorem interfaceToObjectList_objectToInterfaceList (es : List (Option Obj))
    (h : inJsonDomainList es = true) :
    interfaceToObjectList (objectToInterfaceList es) = es := by
  cases es with
  | nil => rfl
  | cons hd tl =>
    cases hd with
    | some o =>
      simp only [inJsonDomainList, Bool.and_eq_true] at h
      simp only [objectToInterfaceList, interfaceToObjectList]
      rw [interfaceToObject_objectToInterface o h.1,
        interfaceToObjectList_objectToInterfaceList tl h.2]
    | none => simp [inJsonDomainList] at h

end

/-- Claim C2 is false on the code at v = Null: the conversion switch of
evalEncodeJsonStatement has no Null case, so `encode null as json`
falls to the error default instead of succeeding. -/
theorem claim2_json_roundtrip_counterexample :
    encodeJsonSource Obj.null = .error "cannot encode NULL as json" := rfl

/-- Claim C2 amended: the encode-then-parse round trip holds for every
value in the Integer/String/Boolean/Null/List domain except the
top-level Null itself — encoding the Null value is a runtime error,
while Nulls nested inside Lists round-trip.  For non-Null domain
values, encoding succeeds with the JSON tree `jv`, parsing the encoded
text wraps `jv` back into a Json object, and lifting `jv` by
interfaceToObject recovers the original value. -/
theorem claim2_json_roundtrip (v : Obj) (hdom : inJsonDomain v = true)
    (hnull : v ≠ .null) :
    ∃ jv, encodeJsonSource v = .ok jv
      ∧ parseJsonOfEncoded jv = .json jv
      ∧ interfaceToObject jv = v := by
  refine ⟨objectToInterface v, ?_, rfl, interfaceToObject_objectToInterface v hdom⟩
  cases v with
  | int n => rfl
  | str s => rfl
  | bool b => rfl
  | null => exact absurd rfl hnull
  | list es => rfl
  | retVal v => simp [inJsonDomain] at hdom
  | error m => simp [inJsonDomain] at hdom
  | func a b c => simp [inJsonDomain] at hdom
  | response a b c => simp [inJsonDomain] at hdom
  | request a b c d e => simp [inJsonDomain] at hdom
  | json j => simp [inJsonDomain] at hdom
  | reply a b c => simp [inJsonDomain] at hdom

/-- Witness for claim C2 at the list [1, null, "a"] (a List containing
a Null round-trips). -/
theorem claim2_json_roundtrip_witness :
    ∃ jv, encodeJsonSource
        (.list [some (.int 1), some .null, some (.str "a")]) = .ok jv
      ∧ parseJsonOfEncoded jv = .json jv
      ∧ interfaceToObject jv
          = .list [some (.int 1), some .null, some (.str "a")] :=
  claim2_json_roundtrip (.list [some (.int 1), some .null, some (.str "a")])
    rfl (fun h => Obj.noConfusion h)

/-! ## Claim C3: wire response for non-ReplyValue handler results -/

/-- `result.(*object.ReplyValue)` succeeds. -/
def isReplyR : Option Obj → Bool
  | some (.reply _ _ _) => true
  | _ => false

/-- Claim C3 is false on the code at a Null handler result: Null.Inspect
is the four-character string `null`, so the response body for a Null
result is `null`, not empty (an empty body arises only from a Go nil
result, e.g. an empty handler block). -/
theorem claim3_non_reply_response_counterexample :
    (writeHandlerResult (some .null)).body = "null"
      ∧ (writeHandlerResult (some .null)).body ≠ ""
      ∧ Obj.inspect .null = "null"
      ∧ (writeHandlerResult none).body = "" := by
  refine ⟨rfl, ?_, rfl, rfl⟩
  intro h
  simp [writeHandlerResult, Obj.inspect] at h

/-- Claim C3 amended: for every route handler invocation whose result
is not a ReplyValue, the server writes status 200 (with no extra
headers) and the Inspect text of the result as the body; a Go nil
result yields an empty body, while a Null result yields the body
`null` (Null's Inspect text). -/
theorem claim3_non_reply_response :
    (∀ result : Option Obj, isReplyR result = false →
      writeHandlerResult result
        = ⟨200, (match result with
                 | some v => v.inspect
                 | none => ""), []⟩)
      ∧ writeHandlerResult (some .null) = ⟨200, "null", []⟩
      ∧ writeHandlerResult none = ⟨200, "", []⟩
      ∧ (∀ (fuel : Nat) (routes : List RouteHandler) (r : RequestData)
          (heap : Heap) (route : RouteHandler) (result : Option Obj)
          (h2 : Heap),
          findRoute routes r = some route →
          runRouteHandler fuel route (requestObj r) heap = some (result, h2) →
          isReplyR result = false →
          handleIncomingRequest fuel routes r heap
            = some (⟨200, (match result with
                           | some v => v.inspect
                           | none => ""), []⟩, h2)) := by
  have hw : ∀ result : Option Obj, isReplyR result = false →
      writeHandlerResult result
        = ⟨200, (match result with
                 | some v => v.inspect
                 | none => ""), []⟩ := by
    intro result h
    match result with
    | none => rfl
    | some (.int n) => rfl
    | some (.str s) => rfl
    | some (.bool b) => rfl
    | some .null => rfl
    | some (.retVal v) => rfl
    | some (.error m) => rfl
    | some (.func a b c) => rfl
    | some (.list es) => rfl
    | some (.response a b c) => rfl
    | some (.request a b c d e) => rfl
    | some (.json j) => rfl
    | some (.reply a b c) => simp [isReplyR] at h
  refine ⟨hw, rfl, rfl, ?_⟩
  intro fuel routes r heap route result h2 hfind hrun hrep
  unfold handleIncomingRequest
  rw [hfind]
  dsimp only
  rw [hrun]
  dsimp only
  rw [hw result hrep]

def c3Route : RouteHandler := ⟨"", "/", [], "", 0, none⟩

def c3Request : RequestData := ⟨"GET", "/", "", [], []⟩

/-- Witness for claim C3: an inline route with an empty body produces a
nil result, and the wire response is 200 with an empty body; a direct
Integer result writes its decimal text. -/
theorem claim3_non_reply_response_witness :
    handleIncomingRequest 5 [c3Route] c3Request [⟨[], none⟩]
        = some (⟨200, "", []⟩, [⟨[], none⟩, ⟨[], some 0⟩])
      ∧ writeHandlerResult (some (.int 5)) = ⟨200, "5", []⟩ := by
  constructor
  · have h := claim3_non_reply_response.2.2.2 5 [c3Route] c3Request
      [⟨[], none⟩] c3Route none [⟨[], none⟩, ⟨[], some 0⟩] rfl rfl rfl
    simpa using h
  · exact claim3_non_reply_response.1 (some (.int 5)) rfl

/-! ## Claim C6: route matching and 404 -/

/-- Claim C6: a route matches exactly when its method is empty or equal
to the request method and its path equals the URL path exactly; the
dispatched route is the first match in registration order; when no
route matches, the server responds 404 with body `Not Found`. -/
theorem claim6_route_dispatch :
    (∀ (route : RouteHandler) (r : RequestData),
      matchRoute route r = true ↔
        ((route.method = "" ∨ route.method = r.method)
          ∧ route.path = r.path))
      ∧ (∀ (routes : List RouteHandler) (r : RequestData)
          (route : RouteHandler),
          findRoute routes r = some route →
          ∃ i, routes.get? i = some route ∧ matchRoute route r = true
            ∧ ∀ j, j < i → ∀ rt, routes.get? j = some rt →
                matchRoute rt r = false)
      ∧ (∀ (routes : List RouteHandler) (r : RequestData),
          findRoute routes r = none →
          ∀ rt ∈ routes, matchRoute rt r = false)
      ∧ (∀ (fuel : Nat) (routes : List RouteHandler) (r : RequestData)
          (heap : Heap),
          findRoute routes r = none →
          handleIncomingRequest fuel routes r heap
            = some (⟨404, "Not Found", []⟩, heap)) := by
  refine ⟨?_, ?_, ?_, ?_⟩
  · intro route r
    unfold matchRoute
    split_ifs with h
    · simp only [Bool.and_eq_true, decide_eq_true_eq] at h
      simp only [Bool.false_eq_true, false_iff]
      intro ⟨hm, hp⟩
      rcases hm with hm | hm
      · exact h.1 hm
      · exact h.2 hm
    · simp only [Bool.and_eq_true, decide_eq_true_eq] at h
      constructor
      · intro hp
        refine ⟨?_, by simpa using hp⟩
        by_cases hm : route.method = ""
        · exact Or.inl hm
        · right
          by_cases hm2 : route.method = r.method
          · exact hm2
          · exact absurd ⟨hm, hm2⟩ h
      · intro ⟨_, hp⟩
        simpa using hp
  · intro routes r
    induction routes with
    | nil => intro route h; simp [findRoute] at h
    | cons rt rest ih =>
      intro route h
      unfold findRoute at h
      by_cases hm : matchRoute rt r = true
      · rw [if_pos hm] at h
        injection h with h
        subst h
        exact ⟨0, rfl, hm, fun j hj _ _ => absurd hj (Nat.not_lt_zero j)⟩
      · rw [if_neg hm] at h
        obtain ⟨i, hget, hmatch, hfirst⟩ := ih route h
        refine ⟨i + 1, by simpa using hget, hmatch, ?_⟩
        intro j hj rt2 hget2
        match j with
        | 0 =>
          injection hget2 with h2
          subst h2
          exact eq_false_of_ne_true hm
        | j + 1 =>
          exact hfirst j (by omega) rt2 (by simpa using hget2)
  · intro routes r
    induction routes with
    | nil => intro _ rt hmem; exact absurd hmem (List.not_mem_nil rt)
    | cons rt0 rest ih =>
      intro h rt hmem
      unfold findRoute at h
      by_cases hm : matchRoute rt0 r = true
      · rw [if_pos hm] at h; exact Option.noConfusion h
      · rw [if_neg hm] at h
        rcases List.mem_cons.mp hmem with heq | hmem2
        · subst heq; exact eq_false_of_ne_true hm
        · exact ih h rt hmem2
  · intro fuel routes r heap h
    unfold handleIncomingRequest
    rw [h]

def c6Routes : List RouteHandler :=
  [⟨"GET", "/a", [], "", 0, none⟩,
   ⟨"", "/b", [], "", 0, none⟩,
   ⟨"", "/a", [], "", 0, none⟩]

def c6Req : RequestData := ⟨"POST", "/a", "", [], []⟩

def c6ReqMiss : RequestData := ⟨"GET", "/zzz", "", [], []⟩

/-- Witness for claim C6: with a GET-only route, a path-mismatched
route, and an any-method route all registered on `/a`, a POST to `/a`
dispatches to the third route (the first match in order), and an
unmatched path yields the 404 response. -/
theorem claim6_route_dispatch_witness :
    (∃ i, c6Routes.get? i = some ⟨"", "/a", [], "", 0, none⟩
      ∧ matchRoute ⟨"", "/a", [], "", 0, none⟩ c6Req = true
      ∧ ∀ j, j < i → ∀ rt, c6Routes.get? j = some rt →
          matchRoute rt c6Req = false)
      ∧ handleIncomingRequest 1 c6Routes c6ReqMiss []
        = some (⟨404, "Not Found", []⟩, []) := by
  constructor
  · exact claim6_route_dispatch.2.1 c6Routes c6Req _ rfl
  · exact claim6_route_dispatch.2.2.2 1 c6Routes c6ReqMiss [] rfl

/-! ## Claim C4: user-defined function call semantics -/

theorem storeGet_storeSet_self (st : List (String × Option Obj))
    (k : String) (v : Option Obj) :
    storeGet (storeSet st k v) k = some v := by
  induction st with
  | nil => simp [storeSet, storeGet]
  | cons kv rest ih =>
    by_cases h : kv.1 = k
    · simp [storeSet, storeGet, h]
    · simp [storeSet, storeGet, h, ih]

theorem storeGet_storeSet_ne (st : List (String × Option Obj))
    (k k2 : String) (v : Option Obj) (h : k ≠ k2) :
    storeGet (storeSet st k v) k2 = storeGet st k2 := by
  induction st with
  | nil => simp [storeSet, storeGet, h]
  | cons kv rest ih =>
    by_cases hh : kv.1 = k
    · simp [storeSet, storeGet, hh, h]
    · simp only [storeSet, hh, if_false]
      by_cases hh2 : kv.1 = k2
      · simp [storeGet, hh2]
      · simp [storeGet, hh2, ih]

theorem storeSet_not_mem (st : List (String × Option Obj)) (k : String)
    (v : Option Obj) (h : ∀ kv ∈ st, kv.1 ≠ k) :
    storeSet st k v = st ++ [(k, v)] := by
  induction st with
  | nil => rfl
  | cons kv rest ih =>
    have h1 : kv.1 ≠ k := h kv (by simp)
    simp only [storeSet, h1, if_false, List.cons_append, List.cons.injEq,
      true_and]
    exact ih (fun kv2 hm => h kv2 (by simp [hm]))

theorem foldl_storeSet_not_mem (pairs : List (String × Option Obj))
    (st : List (String × Option Obj)) (p : String)
    (h : ∀ kv ∈ pairs, kv.1 ≠ p) :
    storeGet (pairs.foldl (fun s kv => storeSet s kv.1 kv.2) st) p
      = storeGet st p := by
  induction pairs generalizing st with
  | nil => rfl
  | cons kv rest ih =>
    simp only [List.foldl_cons]
    rw [ih _ (fun kv2 hm => h kv2 (by simp [hm]))]
    exact storeGet_storeSet_ne st kv.1 p kv.2 (h kv (by simp))

theorem zip_keys_mem {α β : Type} (ps : List α) (vs : List β) (p : α)
    (h : p ∈ (ps.zip vs).map Prod.fst) : p ∈ ps.take vs.length := by
  induction ps generalizing vs with
  | nil => simp [List.zip] at h
  | cons a ps2 ih =>
    cases vs with
    | nil => simp at h
    | cons b vs2 =>
      simp only [List.zip_cons_cons, List.map_cons, List.mem_cons] at h
      rcases h with h | h
      · simp [h]
      · simp only [List.length_cons, List.take_succ_cons, List.mem_cons]
        exact Or.inr (ih vs2 h)

theorem bindParameters_not_mem (ps : List String) (vs : List (Option Obj))
    (p : String) (h : p ∉ ps.take vs.length) :
    storeGet (bindParameters ps vs) p = none := by
  unfold bindParameters
  rw [foldl_storeSet_not_mem]
  · rfl
  · intro kv hm heq
    exact h (heq ▸ zip_keys_mem ps vs kv.1 (List.mem_map_of_mem Prod.fst hm))

theorem zip_take {α β : Type} (ps : List α) (vs : List β) :
    ps.zip vs = ps.zip (vs.take ps.length) := by
  induction ps generalizing vs with
  | nil => simp
  | cons a ps2 ih =>
    cases vs with
    | nil => simp
    | cons b vs2 => simp [List.zip_cons_cons, ih vs2]

theorem bindParameters_extra_args (ps : List String)
    (vs : List (Option Obj)) :
    bindParameters ps vs = bindParameters ps (vs.take ps.length) := by
  unfold bindParameters
  rw [← zip_take]

theorem bindParameters_nodup (ps : List String) (vs : List (Option Obj))
    (hnd : ps.Nodup) : bindParameters ps vs = ps.zip vs := by
  unfold bindParameters
  have key : ∀ (ps2 : List String) (vs2 : List (Option Obj))
      (acc : List (String × Option Obj)), ps2.Nodup →
      (∀ kv ∈ acc, kv.1 ∉ ps2) →
      (ps2.zip vs2).foldl (fun s kv => storeSet s kv.1 kv.2) acc
        = acc ++ ps2.zip vs2 := by
    intro ps2
    induction ps2 with
    | nil => intro vs2 acc _ _; simp
    | cons a ps3 ih =>
      intro vs2 acc hnd2 hdisj
      cases vs2 with
      | nil => simp
      | cons b vs3 =>
        simp only [List.zip_cons_cons, List.foldl_cons]
        rw [storeSet_not_mem acc a b
          (fun kv hm => by
            intro heq
            exact hdisj kv hm (by simp [heq]))]
        rw [ih vs3 (acc ++ [(a, b)]) (List.Nodup.of_cons hnd2) ?_]
        · simp
        · intro kv hm
          rcases List.mem_append.mp hm with h | h
          · intro hc
            exact hdisj kv h (by simp [hc])
          · intro hc
            simp only [List.mem_singleton] at h
            subst h
            exact (List.nodup_cons.mp hnd2).1 hc
  have h2 := key ps vs [] hnd (by simp)
  simpa using h2

theorem storeGet_zip_get (ps : List String) (vs : List (Option Obj))
    (i : Nat) (hi : i < ps.length) (hiv : i < vs.length)
    (hnd : ps.Nodup) :
    storeGet (ps.zip vs) (ps.get ⟨i, hi⟩) = some (vs.get ⟨i, hiv⟩) := by
  induction ps generalizing vs i with
  | nil => simp at hi
  | cons a ps2 ih =>
    cases vs with
    | nil => simp at hiv
    | cons b vs2 =>
      match i with
      | 0 => simp [List.zip_cons_cons, storeGet]
      | i + 1 =>
        have hne : a ≠ ps2.get ⟨i, by simpa using hi⟩ := by
          intro hc
          have hmem : ps2.get ⟨i, by simpa using hi⟩ ∈ ps2 :=
            List.get_mem ps2 i (by simpa using hi)
          rw [← hc] at hmem
          exact (List.nodup_cons.mp hnd).1 hmem
        simp only [List.zip_cons_cons, List.get_cons_succ, storeGet]
        rw [if_neg hne]
        exact ih vs2 i (by simpa using hi) (by simpa using hiv)
          (List.Nodup.of_cons hnd)

def c4Heap : Heap :=
  [⟨[("x", some (.int 5)),
     ("f", some (.func ["x"] [.ret (some (.ident "x"))] 0))], none⟩]

def c4gHeap : Heap :=
  [⟨[("g", some (.func ["a", "b"] [.ret (some (.ident "b"))] 0))], none⟩]

/-- Claim C4 is false on the code in its unbound-parameter clause: `f`
takes parameter `x`, is called with no arguments, and its body's first
reference to `x` does not yield a runtime error — it resolves through
the enclosing (captured) environment to the outer binding x = 5, which
the call returns. -/
theorem claim4_call_semantics_counterexample :
    EvalExpr 10 (.callE "f" []) 0 c4Heap
      = some (some (.int 5), c4Heap ++ [⟨[], some 0⟩]) := rfl

/-- Claim C4 amended: a call of a user-defined function creates a fresh
environment frame enclosing the function's captured environment, binds
parameters positionally (extra arguments are ignored; parameters with
no corresponding argument are left unbound in the fresh frame), and
unwraps a ReturnValue produced by the body; referring to a missing
parameter is a runtime error only when the name also fails to resolve
anywhere on the enclosing environment chain (otherwise the outer
binding is read, as the counterexample shows). -/
theorem claim4_call_semantics :
    (∀ (n : Nat) (fname : String) (args : List Expr) (env : Nat)
        (heap : Heap) (ps : List String) (body : List Stmt) (fenv : Nat)
        (vs : List (Option Obj)) (h1 : Heap),
      envGet heap env fname = some (some (.func ps body fenv)) →
      evalExprList n args env heap = some (.ok vs, h1) →
      EvalExpr (n + 2) (.callE fname args) env heap
        = (match evalBlockStatement n body h1.length
              (h1 ++ [⟨bindParameters ps vs, some fenv⟩]) with
           | none => none
           | some (some (.retVal v), h3) => some (v, h3)
           | some (r, h3) => some (r, h3)))
      ∧ (∀ (ps : List String) (vs : List (Option Obj)),
          bindParameters ps vs = bindParameters ps (vs.take ps.length))
      ∧ (∀ (ps : List String) (vs : List (Option Obj)) (i : Nat)
          (hi : i < ps.length) (hiv : i < vs.length), ps.Nodup →
          storeGet (bindParameters ps vs) (ps.get ⟨i, hi⟩)
            = some (vs.get ⟨i, hiv⟩))
      ∧ (∀ (ps : List String) (vs : List (Option Obj)) (p : String),
          p ∉ ps.take vs.length →
          storeGet (bindParameters ps vs) p = none)
      ∧ (∀ (n : Nat) (p : String) (env : Nat) (heap : Heap),
          p ≠ "null" → p ≠ "true" → p ≠ "false" →
          envGet heap env p = none →
          EvalExpr (n + 1) (.ident p) env heap
            = some (some (.error ("undefined variable: " ++ p)), heap)) := by
  refine ⟨?_, bindParameters_extra_args, ?_, bindParameters_not_mem, ?_⟩
  · intro n fname args env heap ps body fenv vs h1 hget hargs
    simp only [EvalExpr, evalCallExpression]
    rw [hget]
    dsimp only
    rw [hargs]
  · intro ps vs i hi hiv hnd
    rw [bindParameters_nodup ps vs hnd]
    exact storeGet_zip_get ps vs i hi hiv hnd
  · intro n p env heap hp1 hp2 hp3 hget
    simp [EvalExpr, evalIdentifier, hp1, hp2, hp3, hget]

/-- Witness for claim C4: calling a two-parameter function with three
arguments ignores the extra argument, binds positionally, and unwraps
the returned value; the missing-parameter store lookups are exercised
on concrete parameter lists. -/
theorem claim4_call_semantics_witness :
    (EvalExpr 12 (.callE "g" [.intLit 1 "1", .intLit 2 "2", .intLit 3 "3"]) 0
        c4gHeap
      = (match evalBlockStatement 10 [.ret (some (.ident "b"))]
            c4gHeap.length
            (c4gHeap
              ++ [⟨bindParameters ["a", "b"]
                    [some (.int 1), some (.int 2), some (.int 3)], some 0⟩])
          with
         | none => none
         | some (some (.retVal v), h3) => some (v, h3)
         | some (r, h3) => some (r, h3)))
      ∧ bindParameters ["a", "b"] [some (.int 1), some (.int 2), some (.int 3)]
          = bindParameters ["a", "b"] [some (.int 1), some (.int 2)]
      ∧ storeGet (bindParameters ["a", "b"] [some (.int 1)]) "b" = none
      ∧ EvalExpr 1 (.ident "q") 0 [⟨[], none⟩]
          = some (some (.error "undefined variable: q"), [⟨[], none⟩]) := by
  refine ⟨?_, ?_, ?_, ?_⟩
  · exact claim4_call_semantics.1 10 "g"
      [.intLit 1 "1", .intLit 2 "2", .intLit 3 "3"] 0 c4gHeap ["a", "b"]
      [.ret (some (.ident "b"))] 0
      [some (.int 1), some (.int 2), some (.int 3)] c4gHeap rfl rfl
  · have h := claim4_call_semantics.2.1 ["a", "b"]
      [some (.int 1), some (.int 2), some (.int 3)]
    simpa using h
  · exact claim4_call_semantics.2.2.2.1 ["a", "b"] [some (.int 1)] "b"
      (by decide)
  · exact claim4_call_semantics.2.2.2.2 0 "q" 0 [⟨[], none⟩]
      (by decide) (by decide) (by decide) rfl

/-! ## Frame effects of evaluation

The interpreter's statements write only into the innermost frame of the
environment they run in (`Environment.Set`), and expressions write only
into frames created during their own evaluation (call frames).  The
invariants below make that precise: `heapPre` says every frame existing
before a step is unchanged after it; `heapPreEnv env` allows changes to
the single frame `env`. -/

def heapPre (h h' : Heap) : Prop :=
  ∀ i, i < h.length → h'.get? i = h.get? i

def heapPreEnv (env : Nat) (h h' : Heap) : Prop :=
  ∀ i, i < h.length → i ≠ env → h'.get? i = h.get? i

theorem heapPre_refl (h : Heap) : heapPre h h := fun _ _ => rfl

theorem heapPre_mem_lt {h h' : Heap} (hp : heapPre h h') {i : Nat}
    (hi : i < h.length) : i < h'.length := by
  have h1 := hp i hi
  have h2 : h.get? i ≠ none := by
    intro hc
    rw [List.get?_eq_none] at hc
    omega
  rw [← h1] at h2
  by_contra hc
  exact h2 (List.get?_eq_none.mpr (by omega))

theorem heapPre_trans {h1 h2 h3 : Heap} (ha : heapPre h1 h2)
    (hb : heapPre h2 h3) : heapPre h1 h3 := by
  intro i hi
  rw [hb i (heapPre_mem_lt ha hi), ha i hi]

theorem heapPre_append (h : Heap) (l : Heap) : heapPre h (h ++ l) := by
  intro i hi
  exact List.get?_append hi

theorem heapPreEnv_of_pre {env : Nat} {h h' : Heap} (hp : heapPre h h') :
    heapPreEnv env h h' := fun i hi _ => hp i hi

theorem heapPreEnv_mem_lt {env : Nat} {h h' : Heap}
    (hp : heapPreEnv env h h') {i : Nat} (hi : i < h.length)
    (hne : i ≠ env) : i < h'.length := by
  have h1 := hp i hi hne
  have h2 : h.get? i ≠ none := by
    intro hc
    rw [List.get?_eq_none] at hc
    omega
  rw [← h1] at h2
  by_contra hc
  exact h2 (List.get?_eq_none.mpr (by omega))

theorem heapPreEnv_trans {env : Nat} {h1 h2 h3 : Heap}
    (ha : heapPreEnv env h1 h2) (hb : heapPreEnv env h2 h3) :
    heapPreEnv env h1 h3 := by
  intro i hi hne
  rw [hb i (heapPreEnv_mem_lt ha hi hne) hne, ha i hi hne]

theorem heapPre_then_env {env : Nat} {h1 h2 h3 : Heap}
    (ha : heapPre h1 h2) (hb : heapPreEnv env h2 h3) :
    heapPreEnv env h1 h3 := by
  intro i hi hne
  rw [hb i (heapPre_mem_lt ha hi) hne, ha i hi]

theorem envSet_get?_ne (h : Heap) (env : Nat) (name : String)
    (v : Option Obj) (i : Nat) (hne : i ≠ env) :
    (envSet h env name v).get? i = h.get? i := by
  induction h generalizing env i with
  | nil => rfl
  | cons fr rest ih =>
    match env, i with
    | 0, 0 => exact absurd rfl hne
    | 0, j + 1 => rfl
    | e + 1, 0 => rfl
    | e + 1, j + 1 =>
      simp only [envSet, List.get?_cons_succ]
      exact ih e j (fun hc => hne (by omega))

theorem envSet_get?_self (h : Heap) (env : Nat) (name : String)
    (v : Option Obj) :
    (envSet h env name v).get? env
      = (h.get? env).map (fun fr => ⟨storeSet fr.store name v, fr.outer⟩) := by
  induction h generalizing env with
  | nil => rfl
  | cons fr rest ih =>
    match env with
    | 0 => rfl
    | e + 1 =>
      simp only [envSet, List.get?_cons_succ]
      exact ih e

theorem heapPreEnv_envSet (h : Heap) (env : Nat) (name : String)
    (v : Option Obj) : heapPreEnv env h (envSet h env name v) :=
  fun i _ hne => envSet_get?_ne h env name v i hne

theorem heapPreEnv_refl (env : Nat) (h : Heap) : heapPreEnv env h h :=
  heapPreEnv_of_pre (heapPre_refl h)


set_option maxHeartbeats 12800000

mutual

theorem EvalExpr_frames (fuel : Nat) (node : Expr) (env : Nat) (heap : Heap)
    (r : Option Obj) (h' : Heap)
    (h : EvalExpr fuel node env heap = some (r, h')) : heapPre heap h' := by
  match fuel with
  | 0 => exact absurd h (by simp [EvalExpr])
  | n + 1 =>
    cases node with
    | intLit v lit => simp only [EvalExpr] at h; cases h; exact heapPre_refl _
    | strLit s => simp only [EvalExpr] at h; cases h; exact heapPre_refl _
    | boolLit b lit =>
      simp only [EvalExpr] at h; cases h; exact heapPre_refl _
    | ident name => simp only [EvalExpr] at h; cases h; exact heapPre_refl _
    | enil => simp only [EvalExpr] at h; cases h; exact heapPre_refl _
    | negative e =>
      exact evalNegativeExpression_frames n e env heap r h' h
    | listLit es => exact evalListLiteral_frames n es env heap r h' h
    | cmp l op rr =>
      exact evalComparisonExpression_frames n l op rr env heap r h' h
    | logical l op rr =>
      exact evalLogicalExpression_frames n l op rr env heap r h' h
    | arith l op rr =>
      exact evalArithmeticExpression_frames n l op rr env heap r h' h
    | callE f args => exact evalCallExpression_frames n f args env heap r h' h
    | lengthOf e => exact evalLengthExpression_frames n e env heap r h' h
    | index i l => exact evalIndexExpression_frames n i l env heap r h' h
    | bodyOf e => exact evalBodyOfExpression_frames n e env heap r h' h
    | statusOf e => exact evalStatusOfExpression_frames n e env heap r h' h
    | headerFrom a b =>
      exact evalHeaderFromExpression_frames n a b env heap r h' h
    | fieldFrom a b =>
      exact evalFieldFromExpression_frames n a b env heap r h' h
    | methodOf e => exact evalMethodOfExpression_frames n e env heap r h' h
    | pathOf e => exact evalPathOfExpression_frames n e env heap r h' h
    | queryFrom a b =>
      exact evalQueryFromExpression_frames n a b env heap r h' h
  termination_by fuel

theorem EvalStmt_frames (fuel : Nat) (node : Stmt) (env : Nat) (heap : Heap)
    (r : Option Obj) (h' : Heap)
    (h : EvalStmt fuel node env heap = some (r, h')) :
    heapPreEnv env heap h' := by
  match fuel with
  | 0 => exact absurd h (by simp [EvalStmt])
  | n + 1 =>
    cases node with
    | set name v => exact evalSetStatement_frames n name v env heap r h' h
    | ifS c cons alt =>
      exact evalIfStatement_frames n c cons alt env heap r h' h
    | whileS c b => exact evalWhileStatement_frames n c b env heap r h' h
    | forS v it b => exact evalForStatement_frames n v it b env heap r h' h
    | funcDef name ps b =>
      simp only [EvalStmt, evalFunctionDefinition] at h
      cases h
      exact heapPreEnv_envSet heap env name _
    | ret e =>
      exact heapPreEnv_of_pre (evalReturnStatement_frames n e env heap r h' h)
  termination_by fuel

theorem evalBlockStatement_frames (fuel : Nat) (stmts : List Stmt)
    (env : Nat) (heap : Heap) (r : Option Obj) (h' : Heap)
    (h : evalBlockStatement fuel stmts env heap = some (r, h')) :
    heapPreEnv env heap h' := by
  match fuel with
  | 0 => exact absurd h (by simp [evalBlockStatement])
  | n + 1 =>
    cases stmts with
    | nil =>
      simp only [evalBlockStatement] at h; cases h; exact heapPreEnv_refl _ _
    | cons s rest =>
      simp only [evalBlockStatement] at h
      split at h
      · exact Option.noConfusion h
      · rename_i r0 h1 hs
        have hpre1 : heapPreEnv env heap h1 :=
          EvalStmt_frames n s env heap r0 h1 hs
        split at h
        · cases h; exact hpre1
        · split at h
          · cases h; exact hpre1
          · exact heapPreEnv_trans hpre1
              (evalBlockStatement_frames n rest env h1 r h' h)
  termination_by fuel

theorem evalSetStatement_frames (fuel : Nat) (name : String) (value : Expr)
    (env : Nat) (heap : Heap) (r : Option Obj) (h' : Heap)
    (h : evalSetStatement fuel name value env heap = some (r, h')) :
    heapPreEnv env heap h' := by
  match fuel with
  | 0 => exact absurd h (by simp [evalSetStatement])
  | n + 1 =>
    simp only [evalSetStatement] at h
    split at h
    · exact Option.noConfusion h
    · rename_i val h1 hs
      have hpre1 : heapPre heap h1 := EvalExpr_frames n value env heap val h1 hs
      split at h
      · cases h; exact heapPreEnv_of_pre hpre1
      · cases h
        exact heapPre_then_env hpre1 (heapPreEnv_envSet h1 env name _)
  termination_by fuel

theorem evalIfStatement_frames (fuel : Nat) (c : Expr) (cons : List Stmt)
    (alt : Option (List Stmt)) (env : Nat) (heap : Heap) (r : Option Obj)
    (h' : Heap)
    (h : evalIfStatement fuel c cons alt env heap = some (r, h')) :
    heapPreEnv env heap h' := by
  match fuel with
  | 0 => exact absurd h (by simp [evalIfStatement])
  | n + 1 =>
    simp only [evalIfStatement] at h
    split at h
    · exact Option.noConfusion h
    · rename_i cond h1 hs
      have hpre1 : heapPre heap h1 := EvalExpr_frames n c env heap cond h1 hs
      split at h
      · cases h; exact heapPreEnv_of_pre hpre1
      · split at h
        · exact heapPre_then_env hpre1
            (evalBlockStatement_frames n cons env h1 r h' h)
        · split at h
          · exact heapPre_then_env hpre1
              (evalBlockStatement_frames n _ env h1 r h' h)
          · cases h; exact heapPreEnv_of_pre hpre1
  termination_by fuel

theorem evalWhileStatement_frames (fuel : Nat) (c : Expr) (body : List Stmt)
    (env : Nat) (heap : Heap) (r : Option Obj) (h' : Heap)
    (h : evalWhileStatement fuel c body env heap = some (r, h')) :
    heapPreEnv env heap h' := by
  match fuel with
  | 0 => exact absurd h (by simp [evalWhileStatement])
  | n + 1 =>
    simp only [evalWhileStatement] at h
    exact evalWhileLoop_frames n c body env heap (some .null) r h' h
  termination_by fuel

theorem evalWhileLoop_frames (fuel : Nat) (c : Expr) (body : List Stmt)
    (env : Nat) (heap : Heap) (acc : Option Obj) (r : Option Obj) (h' : Heap)
    (h : evalWhileLoop fuel c body env heap acc = some (r, h')) :
    heapPreEnv env heap h' := by
  match fuel with
  | 0 => exact absurd h (by simp [evalWhileLoop])
  | n + 1 =>
    simp only [evalWhileLoop] at h
    split at h
    · exact Option.noConfusion h
    · rename_i cond h1 hs
      have hpre1 : heapPre heap h1 := EvalExpr_frames n c env heap cond h1 hs
      split at h
      · cases h; exact heapPreEnv_of_pre hpre1
      · split at h
        · split at h
          · exact Option.noConfusion h
          · rename_i r0 h2 hb
            have hpre2 : heapPreEnv env heap h2 :=
              heapPre_then_env hpre1
                (evalBlockStatement_frames n body env h1 r0 h2 hb)
            split at h
            · cases h; exact hpre2
            · exact heapPreEnv_trans hpre2
                (evalWhileLoop_frames n c body env h2 r0 r h' h)
        · cases h; exact heapPreEnv_of_pre hpre1
  termination_by fuel

theorem evalForStatement_frames (fuel : Nat) (v : String) (iterable : Expr)
    (body : List Stmt) (env : Nat) (heap : Heap) (r : Option Obj) (h' : Heap)
    (h : evalForStatement fuel v iterable body env heap = some (r, h')) :
    heapPreEnv env heap h' := by
  match fuel with
  | 0 => exact absurd h (by simp [evalForStatement])
  | n + 1 =>
    simp only [evalForStatement] at h
    split at h
    · exact Option.noConfusion h
    · rename_i it h1 hs
      have hpre1 : heapPre heap h1 :=
        EvalExpr_frames n iterable env heap it h1 hs
      split at h
      · cases h; exact heapPreEnv_of_pre hpre1
      · split at h
        · exact heapPre_then_env hpre1
            (evalForLoop_frames n v _ body env h1 (some .null) r h' h)
        · cases h; exact heapPreEnv_of_pre hpre1
  termination_by fuel

theorem evalForLoop_frames (fuel : Nat) (v : String)
    (elems : List (Option Obj)) (body : List Stmt) (env : Nat) (heap : Heap)
    (acc : Option Obj) (r : Option Obj) (h' : Heap)
    (h : evalForLoop fuel v elems body env heap acc = some (r, h')) :
    heapPreEnv env heap h' := by
  match fuel with
  | 0 => exact absurd h (by simp [evalForLoop])
  | n + 1 =>
    cases elems with
    | nil => simp only [evalForLoop] at h; cases h; exact heapPreEnv_refl _ _
    | cons e es =>
      simp only [evalForLoop] at h
      split at h
      · exact Option.noConfusion h
      · rename_i r0 h2 hb
        have hset : heapPreEnv env heap (envSet heap env v e) :=
          heapPreEnv_envSet heap env v e
        have hpre2 : heapPreEnv env heap h2 :=
          heapPreEnv_trans hset
            (evalBlockStatement_frames n body env (envSet heap env v e)
              r0 h2 hb)
        split at h
        · cases h; exact hpre2
        · exact heapPreEnv_trans hpre2
            (evalForLoop_frames n v es body env h2 r0 r h' h)
  termination_by fuel

theorem evalReturnStatement_frames (fuel : Nat) (e : Option Expr) (env : Nat)
    (heap : Heap) (r : Option Obj) (h' : Heap)
    (h : evalReturnStatement fuel e env heap = some (r, h')) :
    heapPre heap h' := by
  match fuel with
  | 0 => exact absurd h (by simp [evalReturnStatement])
  | n + 1 =>
    cases e with
    | none =>
      simp only [evalReturnStatement] at h; cases h; exact heapPre_refl _
    | some ex =>
      simp only [evalReturnStatement] at h
      split at h
      · exact Option.noConfusion h
      · rename_i val h1 hs
        have hpre1 : heapPre heap h1 := EvalExpr_frames n ex env heap val h1 hs
        split at h
        · cases h; exact hpre1
        · cases h; exact hpre1
  termination_by fuel

theorem evalNegativeExpression_frames (fuel : Nat) (e : Expr) (env : Nat)
    (heap : Heap) (r : Option Obj) (h' : Heap)
    (h : evalNegativeExpression fuel e env heap = some (r, h')) :
    heapPre heap h' := by
  match fuel with
  | 0 => exact absurd h (by simp [evalNegativeExpression])
  | n + 1 =>
    simp only [evalNegativeExpression] at h
    split at h
    · exact Option.noConfusion h
    · rename_i val h1 hs
      have hpre1 : heapPre heap h1 := EvalExpr_frames n e env heap val h1 hs
      split at h
      · cases h; exact hpre1
      · split at h <;> (cases h; exact hpre1)
  termination_by fuel

theorem evalListLiteral_frames (fuel : Nat) (es : List Expr) (env : Nat)
    (heap : Heap) (r : Option Obj) (h' : Heap)
    (h : evalListLiteral fuel es env heap = some (r, h')) :
    heapPre heap h' := by
  match fuel with
  | 0 => exact absurd h (by simp [evalListLiteral])
  | n + 1 =>
    simp only [evalListLiteral] at h
    split at h
    · exact Option.noConfusion h
    · rename_i e h1 hs
      cases h
      exact evalExprList_frames n es env heap _ _ hs
    · rename_i vs h1 hs
      cases h
      exact evalExprList_frames n es env heap _ _ hs
  termination_by fuel

theorem evalExprList_frames (fuel : Nat) (es : List Expr) (env : Nat)
    (heap : Heap) (x : Except Obj (List (Option Obj))) (h' : Heap)
    (h : evalExprList fuel es env heap = some (x, h')) :
    heapPre heap h' := by
  match fuel with
  | 0 => exact absurd h (by simp [evalExprList])
  | n + 1 =>
    cases es with
    | nil => simp only [evalExprList] at h; cases h; exact heapPre_refl _
    | cons e rest =>
      simp only [evalExprList] at h
      split at h
      · exact Option.noConfusion h
      · rename_i m h1 hs
        cases h
        exact EvalExpr_frames n e env heap _ _ hs
      · rename_i v h1 hne hs
        have hpre1 : heapPre heap h1 := EvalExpr_frames n e env heap v h1 hs
        split at h
        · exact Option.noConfusion h
        · rename_i err h2 hr
          cases h
          exact heapPre_trans hpre1 (evalExprList_frames n rest env h1 _ _ hr)
        · rename_i vs h2 hr
          cases h
          exact heapPre_trans hpre1 (evalExprList_frames n rest env h1 _ _ hr)
  termination_by fuel

theorem evalComparisonExpression_frames (fuel : Nat) (l : Expr) (op : String)
    (rr : Expr) (env : Nat) (heap : Heap) (r : Option Obj) (h' : Heap)
    (h : evalComparisonExpression fuel l op rr env heap = some (r, h')) :
    heapPre heap h' := by
  match fuel with
  | 0 => exact absurd h (by simp [evalComparisonExpression])
  | n + 1 =>
    simp only [evalComparisonExpression] at h
    split at h
    · exact Option.noConfusion h
    · rename_i left h1 hsl
      have hpre1 : heapPre heap h1 := EvalExpr_frames n l env heap left h1 hsl
      split at h
      · cases h; exact hpre1
      · split at h
        · exact Option.noConfusion h
        · rename_i right h2 hsr
          have hpre2 : heapPre heap h2 :=
            heapPre_trans hpre1 (EvalExpr_frames n rr env h1 right h2 hsr)
          split at h
          · cases h; exact hpre2
          · split at h
            · split at h <;> (cases h; exact hpre2)
            · cases h; exact hpre2
  termination_by fuel

theorem evalLogicalExpression_frames (fuel : Nat) (l : Option Expr)
    (op : String) (rr : Expr) (env : Nat) (heap : Heap) (r : Option Obj)
    (h' : Heap)
    (h : evalLogicalExpression fuel l op rr env heap = some (r, h')) :
    heapPre heap h' := by
  match fuel with
  | 0 => exact absurd h (by simp [evalLogicalExpression])
  | n + 1 =>
    simp only [evalLogicalExpression] at h
    split at h
    · split at h
      · exact Option.noConfusion h
      · rename_i right h1 hs
        have hpre1 : heapPre heap h1 := EvalExpr_frames n rr env heap right h1 hs
        split at h <;> (cases h; exact hpre1)
    · split at h
      · exact Option.noConfusion h
      · rename_i left h1 hs
        have hpre1 : heapPre heap h1 :=
          EvalExpr_frames n (l.getD .enil) env heap left h1 hs
        split at h
        · cases h; exact hpre1
        · split at h
          · cases h; exact hpre1
          · split at h
            · exact Option.noConfusion h
            · rename_i right h2 hsr
              have hpre2 : heapPre heap h2 :=
                heapPre_trans hpre1 (EvalExpr_frames n rr env h1 right h2 hsr)
              split at h <;> (cases h; exact hpre2)
    · split at h
      · exact Option.noConfusion h
      · rename_i left h1 hs
        have hpre1 : heapPre heap h1 :=
          EvalExpr_frames n (l.getD .enil) env heap left h1 hs
        split at h
        · cases h; exact hpre1
        · split at h
          · cases h; exact hpre1
          · split at h
            · exact Option.noConfusion h
            · rename_i right h2 hsr
              have hpre2 : heapPre heap h2 :=
                heapPre_trans hpre1 (EvalExpr_frames n rr env h1 right h2 hsr)
              split at h <;> (cases h; exact hpre2)
    · cases h; exact heapPre_refl _
  termination_by fuel

theorem evalArithmeticExpression_frames (fuel : Nat) (l : Expr) (op : String)
    (rr : Expr) (env : Nat) (heap : Heap) (r : Option Obj) (h' : Heap)
    (h : evalArithmeticExpression fuel l op rr env heap = some (r, h')) :
    heapPre heap h' := by
  match fuel with
  | 0 => exact absurd h (by simp [evalArithmeticExpression])
  | n + 1 =>
    simp only [evalArithmeticExpression] at h
    split at h
    · exact Option.noConfusion h
    · rename_i left h1 hsl
      have hpre1 : heapPre heap h1 := EvalExpr_frames n l env heap left h1 hsl
      split at h
      · cases h; exact hpre1
      · split at h
        · exact Option.noConfusion h
        · rename_i right h2 hsr
          have hpre2 : heapPre heap h2 :=
            heapPre_trans hpre1 (EvalExpr_frames n rr env h1 right h2 hsr)
          split at h
          · cases h; exact hpre2
          · split at h
            · cases h; exact hpre2
            · split at h
              · split at h
                · split at h
                  · cases h; exact hpre2
                  · cases h; exact hpre2
                  · cases h; exact hpre2
                  · split at h
                    · cases h; exact hpre2
                    · cases h; exact hpre2
                  · cases h; exact hpre2
                · cases h; exact hpre2
              · cases h; exact hpre2
  termination_by fuel

theorem evalCallExpression_frames (fuel : Nat) (fname : String)
    (args : List Expr) (env : Nat) (heap : Heap) (r : Option Obj) (h' : Heap)
    (h : evalCallExpression fuel fname args env heap = some (r, h')) :
    heapPre heap h' := by
  match fuel with
  | 0 => exact absurd h (by simp [evalCallExpression])
  | n + 1 =>
    simp only [evalCallExpression] at h
    split at h
    · cases h; exact heapPre_refl _
    · split at h
      · rename_i ps body fenv hfn
        split at h
        · exact Option.noConfusion h
        · rename_i m h1 hl
          cases h
          exact evalExprList_frames n args env heap _ _ hl
        · rename_i vs h1 hl
          have hpre1 : heapPre heap h1 :=
            evalExprList_frames n args env heap _ h1 hl
          have hpre2 : heapPre heap (h1 ++ [⟨bindParameters ps vs, some fenv⟩]) :=
            heapPre_trans hpre1 (heapPre_append h1 _)
          split at h
          · exact Option.noConfusion h
          · rename_i v h3 hb
            have hblock := evalBlockStatement_frames n body h1.length
              (h1 ++ [⟨bindParameters ps vs, some fenv⟩]) _ h3 hb
            have hfinal : heapPre heap h3 := by
              intro i hi
              have hi1 : i < h1.length := heapPre_mem_lt hpre1 hi
              rw [hblock i (heapPre_mem_lt hpre2 hi) (by omega), hpre2 i hi]
            cases h; exact hfinal
          · rename_i res h3 hne hb
            have hblock := evalBlockStatement_frames n body h1.length
              (h1 ++ [⟨bindParameters ps vs, some fenv⟩]) _ h3 hb
            have hfinal : heapPre heap h3 := by
              intro i hi
              have hi1 : i < h1.length := heapPre_mem_lt hpre1 hi
              rw [hblock i (heapPre_mem_lt hpre2 hi) (by omega), hpre2 i hi]
            cases h; exact hfinal
      · cases h; exact heapPre_refl _
  termination_by fuel

theorem evalLengthExpression_frames (fuel : Nat) (e : Expr) (env : Nat)
    (heap : Heap) (r : Option Obj) (h' : Heap)
    (h : evalLengthExpression fuel e env heap = some (r, h')) :
    heapPre heap h' := by
  match fuel with
  | 0 => exact absurd h (by simp [evalLengthExpression])
  | n + 1 =>
    simp only [evalLengthExpression] at h
    split at h
    · exact Option.noConfusion h
    · rename_i val h1 hs
      have hpre1 : heapPre heap h1 := EvalExpr_frames n e env heap val h1 hs
      split at h
      · cases h; exact hpre1
      · split at h <;> (cases h; exact hpre1)
  termination_by fuel

theorem evalIndexExpression_frames (fuel : Nat) (iE : Expr) (lE : Expr)
    (env : Nat) (heap : Heap) (r : Option Obj) (h' : Heap)
    (h : evalIndexExpression fuel iE lE env heap = some (r, h')) :
    heapPre heap h' := by
  match fuel with
  | 0 => exact absurd h (by simp [evalIndexExpression])
  | n + 1 =>
    simp only [evalIndexExpression] at h
    split at h
    · exact Option.noConfusion h
    · rename_i idx h1 hsl
      have hpre1 : heapPre heap h1 := EvalExpr_frames n iE env heap idx h1 hsl
      split at h
      · cases h; exact hpre1
      · split at h
        · exact Option.noConfusion h
        · rename_i lst h2 hsr
          have hpre2 : heapPre heap h2 :=
            heapPre_trans hpre1 (EvalExpr_frames n lE env h1 lst h2 hsr)
          split at h
          · cases h; exact hpre2
          · split at h
            · split at h
              · split at h <;> (cases h; exact hpre2)
              · split at h <;> (cases h; exact hpre2)
              · cases h; exact hpre2
            · cases h; exact hpre2
  termination_by fuel

theorem evalBodyOfExpression_frames (fuel : Nat) (e : Expr) (env : Nat)
    (heap : Heap) (r : Option Obj) (h' : Heap)
    (h : evalBodyOfExpression fuel e env heap = some (r, h')) :
    heapPre heap h' := by
  match fuel with
  | 0 => exact absurd h (by simp [evalBodyOfExpression])
  | n + 1 =>
    simp only [evalBodyOfExpression] at h
    split at h
    · exact Option.noConfusion h
    · rename_i val h1 hs
      have hpre1 : heapPre heap h1 := EvalExpr_frames n e env heap val h1 hs
      split at h
      · cases h; exact hpre1
      · split at h <;> (cases h; exact hpre1)
  termination_by fuel

theorem evalStatusOfExpression_frames (fuel : Nat) (e : Expr) (env : Nat)
    (heap : Heap) (r : Option Obj) (h' : Heap)
    (h : evalStatusOfExpression fuel e env heap = some (r, h')) :
    heapPre heap h' := by
  match fuel with
  | 0 => exact absurd h (by simp [evalStatusOfExpression])
  | n + 1 =>
    simp only [evalStatusOfExpression] at h
    split at h
    · exact Option.noConfusion h
    · rename_i val h1 hs
      have hpre1 : heapPre heap h1 := EvalExpr_frames n e env heap val h1 hs
      split at h
      · cases h; exact hpre1
      · split at h <;> (cases h; exact hpre1)
  termination_by fuel

theorem evalHeaderFromExpression_frames (fuel : Nat) (hE : Expr) (rE : Expr)
    (env : Nat) (heap : Heap) (r : Option Obj) (h' : Heap)
    (h : evalHeaderFromExpression fuel hE rE env heap = some (r, h')) :
    heapPre heap h' := by
  match fuel with
  | 0 => exact absurd h (by simp [evalHeaderFromExpression])
  | n + 1 =>
    simp only [evalHeaderFromExpression] at h
    split at h
    · exact Option.noConfusion h
    · rename_i hn h1 hs
      have hpre1 : heapPre heap h1 := EvalExpr_frames n hE env heap hn h1 hs
      split at h
      · cases h; exact hpre1
      · split at h
        · split at h
          · exact Option.noConfusion h
          · rename_i resp h2 hsr
            have hpre2 : heapPre heap h2 :=
              heapPre_trans hpre1 (EvalExpr_frames n rE env h1 resp h2 hsr)
            split at h
            · cases h; exact hpre2
            · split at h
              · split at h <;> (cases h; exact hpre2)
              · split at h <;> (cases h; exact hpre2)
              · cases h; exact hpre2
        · cases h; exact hpre1
  termination_by fuel

theorem evalFieldFromExpression_frames (fuel : Nat) (fE : Expr) (sE : Expr)
    (env : Nat) (heap : Heap) (r : Option Obj) (h' : Heap)
    (h : evalFieldFromExpression fuel fE sE env heap = some (r, h')) :
    heapPre heap h' := by
  match fuel with
  | 0 => exact absurd h (by simp [evalFieldFromExpression])
  | n + 1 =>
    simp only [evalFieldFromExpression] at h
    split at h
    · exact Option.noConfusion h
    · rename_i fn h1 hs
      have hpre1 : heapPre heap h1 := EvalExpr_frames n fE env heap fn h1 hs
      split at h
      · cases h; exact hpre1
      · split at h
        · split at h
          · exact Option.noConfusion h
          · rename_i src h2 hsr
            have hpre2 : heapPre heap h2 :=
              heapPre_trans hpre1 (EvalExpr_frames n sE env h1 src h2 hsr)
            split at h
            · cases h; exact hpre2
            · split at h <;> (cases h; exact hpre2)
        · cases h; exact hpre1
  termination_by fuel

theorem evalMethodOfExpression_frames (fuel : Nat) (e : Expr) (env : Nat)
    (heap : Heap) (r : Option Obj) (h' : Heap)
    (h : evalMethodOfExpression fuel e env heap = some (r, h')) :
    heapPre heap h' := by
  match fuel with
  | 0 => exact absurd h (by simp [evalMethodOfExpression])
  | n + 1 =>
    simp only [evalMethodOfExpression] at h
    split at h
    · exact Option.noConfusion h
    · rename_i val h1 hs
      have hpre1 : heapPre heap h1 := EvalExpr_frames n e env heap val h1 hs
      split at h
      · cases h; exact hpre1
      · split at h <;> (cases h; exact hpre1)
  termination_by fuel

theorem evalPathOfExpression_frames (fuel : Nat) (e : Expr) (env : Nat)
    (heap : Heap) (r : Option Obj) (h' : Heap)
    (h : evalPathOfExpression fuel e env heap = some (r, h')) :
    heapPre heap h' := by
  match fuel with
  | 0 => exact absurd h (by simp [evalPathOfExpression])
  | n + 1 =>
    simp only [evalPathOfExpression] at h
    split at h
    · exact Option.noConfusion h
    · rename_i val h1 hs
      have hpre1 : heapPre heap h1 := EvalExpr_frames n e env heap val h1 hs
      split at h
      · cases h; exact hpre1
      · split at h <;> (cases h; exact hpre1)
  termination_by fuel

theorem evalQueryFromExpression_frames (fuel : Nat) (qE : Expr) (rE : Expr)
    (env : Nat) (heap : Heap) (r : Option Obj) (h' : Heap)
    (h : evalQueryFromExpression fuel qE rE env heap = some (r, h')) :
    heapPre heap h' := by
  match fuel with
  | 0 => exact absurd h (by simp [evalQueryFromExpression])
  | n + 1 =>
    simp only [evalQueryFromExpression] at h
    split at h
    · exact Option.noConfusion h
    · rename_i qn h1 hs
      have hpre1 : heapPre heap h1 := EvalExpr_frames n qE env heap qn h1 hs
      split at h
      · cases h; exact hpre1
      · split at h
        · split at h
          · exact Option.noConfusion h
          · rename_i req h2 hsr
            have hpre2 : heapPre heap h2 :=
              heapPre_trans hpre1 (EvalExpr_frames n rE env h1 req h2 hsr)
            split at h
            · cases h; exact hpre2
            · split at h
              · split at h <;> (cases h; exact hpre2)
              · cases h; exact hpre2
        · cases h; exact hpre1
  termination_by fuel

end

mutual

/-- Whether a statement (syntactically, recursively through nested blocks)
contains a `set`, `for each`, or function definition that rebinds `v`. -/
def bindsName (v : String) : Stmt → Bool
  | .set w _ => decide (w = v)
  | .ifS _ cons alt =>
      bindsList v cons ||
        (match alt with
         | some b => bindsList v b
         | none => false)
  | .whileS _ b => bindsList v b
  | .forS w _ b => decide (w = v) || bindsList v b
  | .funcDef w _ _ => decide (w = v)
  | .ret _ => false
  termination_by s => sizeOf s

def bindsList (v : String) : List Stmt → Bool
  | [] => false
  | s :: rest => bindsName v s || bindsList v rest
  termination_by l => sizeOf l

end

/-- The binding of `v` stored directly in frame `env` (not following the
outer chain). -/
def frameVar (heap : Heap) (env : Nat) (v : String) : Option (Option Obj) :=
  match heap.get? env with
  | some fr => storeGet fr.store v
  | none => none

theorem bindsTest : bindsList "v" [.set "v" (.intLit 99 "99")] = true := by
  simp [bindsList, bindsName]

theorem bindsTest2 : bindsList "v" [.ifS .enil [.set "w" .enil] (some [.whileS .enil [.set "v" .enil]])] = true := by
  simp [bindsList, bindsName]

/-- C9: evaluating a `set` statement is atomic with respect to the
environment. If the right-hand side evaluates to an error value, that error
is propagated as the statement result and every pre-existing frame is left
untouched (heapPre; right-hand-side function calls can only append
transient frames). Otherwise the result is the computed value, and the
final heap is `envSet h1 env name val`: every frame other than `env` is
unchanged, and in frame `env` exactly the target name is bound to the
value while every other key keeps its previous binding. -/
theorem claim9_set_atomicity (n : Nat) (name : String) (value : Expr)
    (env : Nat) (heap : Heap) (val : Option Obj) (h1 : Heap)
    (hs : EvalExpr n value env heap = some (val, h1)) :
    (isError val = true →
      evalSetStatement (n + 1) name value env heap = some (val, h1) ∧
      heapPre heap h1) ∧
    (isError val = false →
      evalSetStatement (n + 1) name value env heap =
        some (val, envSet h1 env name val) ∧
      heapPre heap h1 ∧
      (∀ i, i ≠ env → (envSet h1 env name val).get? i = h1.get? i) ∧
      ∀ fr, h1.get? env = some fr →
        (envSet h1 env name val).get? env =
          some ⟨storeSet fr.store name val, fr.outer⟩ ∧
        storeGet (storeSet fr.store name val) name = some val ∧
        ∀ k, k ≠ name → storeGet (storeSet fr.store name val) k =
          storeGet fr.store k) := by
  constructor
  · intro he
    refine ⟨?_, EvalExpr_frames n value env heap val h1 hs⟩
    simp only [evalSetStatement, hs]
    rw [if_pos he]
  · intro he
    refine ⟨?_, EvalExpr_frames n value env heap val h1 hs, ?_, ?_⟩
    · simp only [evalSetStatement, hs]
      rw [if_neg (by simp [he])]
    · intro i hi
      exact envSet_get?_ne h1 env name val i hi
    · intro fr hfr
      refine ⟨?_, storeGet_storeSet_self _ _ _, ?_⟩
      · rw [envSet_get?_self, hfr]
        rfl
      · intro k hk
        exact storeGet_storeSet_ne fr.store name k val (Ne.symm hk)

set_option maxRecDepth 4000 in
theorem claim9_set_atomicity_witness :
    evalSetStatement 2 "x" (.intLit 5 "5") 0 [⟨[("x", some (.int 1))], none⟩] =
      some (some (.int 5),
        envSet [⟨[("x", some (.int 1))], none⟩] 0 "x" (some (.int 5))) ∧
    storeGet (storeSet [("x", some (.int 1))] "x" (some (.int 5))) "x" =
      some (some (.int 5)) := by
  have h := claim9_set_atomicity 1 "x" (.intLit 5 "5") 0
    [⟨[("x", some (.int 1))], none⟩] (some (.int 5))
    [⟨[("x", some (.int 1))], none⟩] rfl
  have h2 := h.2 rfl
  exact ⟨h2.1, (h2.2.2.2 ⟨[("x", some (.int 1))], none⟩ rfl).2.1⟩

theorem envSet_length (h : Heap) (env : Nat) (name : String)
    (v : Option Obj) : (envSet h env name v).length = h.length := by
  induction h generalizing env with
  | nil => rfl
  | cons fr rest ih =>
    match env with
    | 0 => rfl
    | e + 1 => simp only [envSet, List.length_cons, ih e]

theorem frameVar_of_heapPre {h h' : Heap} (hp : heapPre h h') {env : Nat}
    (hlt : env < h.length) (v : String) :
    frameVar h' env v = frameVar h env v := by
  simp only [frameVar, hp env hlt]

theorem frameVar_envSet_ne (h : Heap) (env : Nat) (w v : String)
    (val : Option Obj) (hw : w ≠ v) :
    frameVar (envSet h env w val) env v = frameVar h env v := by
  simp only [frameVar, envSet_get?_self]
  cases h.get? env with
  | none => rfl
  | some fr => simp [storeGet_storeSet_ne fr.store w v val hw]

theorem frameVar_envSet_self (h : Heap) (env : Nat) (v : String)
    (val : Option Obj) (hlt : env < h.length) :
    frameVar (envSet h env v val) env v = some val := by
  simp only [frameVar, envSet_get?_self]
  cases hh : h.get? env with
  | none =>
    rw [List.get?_eq_none] at hh
    omega
  | some fr => simp [storeGet_storeSet_self]

mutual

theorem EvalStmt_keepVar (fuel : Nat) (s : Stmt) (v : String) (env : Nat)
    (heap : Heap) (r : Option Obj) (h' : Heap)
    (hb : bindsName v s = false) (hlt : env < heap.length)
    (h : EvalStmt fuel s env heap = some (r, h')) :
    env < h'.length ∧ frameVar h' env v = frameVar heap env v := by
  match fuel with
  | 0 => exact absurd h (by simp [EvalStmt])
  | n + 1 =>
    cases s with
    | set name val =>
      simp only [bindsName] at hb
      exact evalSetStatement_keepVar n name val v env heap r h'
        (of_decide_eq_false hb) hlt h
    | ifS c cons alt =>
      cases alt with
      | none =>
        simp only [bindsName] at hb
        exact evalIfStatement_keepVar n c cons none v env heap r h'
          (by simpa using hb) (fun b hab => Option.noConfusion hab) hlt h
      | some bb =>
        simp only [bindsName] at hb
        rcases Bool.or_eq_false_iff.mp hb with ⟨hb1, hb2⟩
        exact evalIfStatement_keepVar n c cons (some bb) v env heap r h' hb1
          (fun b hab => by cases hab; exact hb2) hlt h
    | whileS c b =>
      simp only [bindsName] at hb
      exact evalWhileStatement_keepVar n c b v env heap r h' hb hlt h
    | forS w it b =>
      simp only [bindsName] at hb
      rcases Bool.or_eq_false_iff.mp hb with ⟨hb1, hb2⟩
      exact evalForStatement_keepVar n w it b v env heap r h'
        (of_decide_eq_false hb1) hb2 hlt h
    | funcDef name ps b =>
      simp only [bindsName] at hb
      simp only [EvalStmt, evalFunctionDefinition] at h
      cases h
      refine ⟨?_, ?_⟩
      · rw [envSet_length]; exact hlt
      · exact frameVar_envSet_ne heap env name v _ (of_decide_eq_false hb)
    | ret e =>
      have hp := evalReturnStatement_frames n e env heap r h' h
      exact ⟨heapPre_mem_lt hp hlt, frameVar_of_heapPre hp hlt v⟩
  termination_by fuel

theorem evalBlockStatement_keepVar (fuel : Nat) (stmts : List Stmt)
    (v : String) (env : Nat) (heap : Heap) (r : Option Obj) (h' : Heap)
    (hb : bindsList v stmts = false) (hlt : env < heap.length)
    (h : evalBlockStatement fuel stmts env heap = some (r, h')) :
    env < h'.length ∧ frameVar h' env v = frameVar heap env v := by
  match fuel with
  | 0 => exact absurd h (by simp [evalBlockStatement])
  | n + 1 =>
    cases stmts with
    | nil =>
      simp only [evalBlockStatement] at h; cases h; exact ⟨hlt, rfl⟩
    | cons s rest =>
      simp only [bindsList] at hb
      rcases Bool.or_eq_false_iff.mp hb with ⟨hb1, hb2⟩
      simp only [evalBlockStatement] at h
      split at h
      · exact Option.noConfusion h
      · rename_i r0 h1 hs
        obtain ⟨hl1, hv1⟩ := EvalStmt_keepVar n s v env heap r0 h1 hb1 hlt hs
        split at h
        · cases h; exact ⟨hl1, hv1⟩
        · split at h
          · cases h; exact ⟨hl1, hv1⟩
          · obtain ⟨hl2, hv2⟩ := evalBlockStatement_keepVar n rest v env h1
              r h' hb2 hl1 h
            exact ⟨hl2, hv2.trans hv1⟩
  termination_by fuel

theorem evalSetStatement_keepVar (fuel : Nat) (name : String) (value : Expr)
    (v : String) (env : Nat) (heap : Heap) (r : Option Obj) (h' : Heap)
    (hw : name ≠ v) (hlt : env < heap.length)
    (h : evalSetStatement fuel name value env heap = some (r, h')) :
    env < h'.length ∧ frameVar h' env v = frameVar heap env v := by
  match fuel with
  | 0 => exact absurd h (by simp [evalSetStatement])
  | n + 1 =>
    simp only [evalSetStatement] at h
    split at h
    · exact Option.noConfusion h
    · rename_i val h1 hs
      have hp := EvalExpr_frames n value env heap val h1 hs
      have hl1 := heapPre_mem_lt hp hlt
      have hv1 := frameVar_of_heapPre hp hlt v
      split at h
      · cases h; exact ⟨hl1, hv1⟩
      · cases h
        refine ⟨?_, ?_⟩
        · rw [envSet_length]; exact hl1
        · exact (frameVar_envSet_ne h1 env name v _ hw).trans hv1
  termination_by fuel

theorem evalIfStatement_keepVar (fuel : Nat) (c : Expr) (cons : List Stmt)
    (alt : Option (List Stmt)) (v : String) (env : Nat) (heap : Heap)
    (r : Option Obj) (h' : Heap)
    (hc : bindsList v cons = false)
    (halt : ∀ b, alt = some b → bindsList v b = false)
    (hlt : env < heap.length)
    (h : evalIfStatement fuel c cons alt env heap = some (r, h')) :
    env < h'.length ∧ frameVar h' env v = frameVar heap env v := by
  match fuel with
  | 0 => exact absurd h (by simp [evalIfStatement])
  | n + 1 =>
    simp only [evalIfStatement] at h
    split at h
    · exact Option.noConfusion h
    · rename_i cond h1 hs
      have hp := EvalExpr_frames n c env heap cond h1 hs
      have hl1 := heapPre_mem_lt hp hlt
      have hv1 := frameVar_of_heapPre hp hlt v
      split at h
      · cases h; exact ⟨hl1, hv1⟩
      · split at h
        · obtain ⟨hl2, hv2⟩ := evalBlockStatement_keepVar n cons v env h1
            r h' hc hl1 h
          exact ⟨hl2, hv2.trans hv1⟩
        · split at h
          · rename_i b
            obtain ⟨hl2, hv2⟩ := evalBlockStatement_keepVar n b v env h1
              r h' (halt b rfl) hl1 h
            exact ⟨hl2, hv2.trans hv1⟩
          · cases h; exact ⟨hl1, hv1⟩
  termination_by fuel

theorem evalWhileStatement_keepVar (fuel : Nat) (c : Expr)
    (body : List Stmt) (v : String) (env : Nat) (heap : Heap)
    (r : Option Obj) (h' : Heap)
    (hbody : bindsList v body = false) (hlt : env < heap.length)
    (h : evalWhileStatement fuel c body env heap = some (r, h')) :
    env < h'.length ∧ frameVar h' env v = frameVar heap env v := by
  match fuel with
  | 0 => exact absurd h (by simp [evalWhileStatement])
  | n + 1 =>
    simp only [evalWhileStatement] at h
    exact evalWhileLoop_keepVar n c body v env heap (some .null) r h'
      hbody hlt h
  termination_by fuel

theorem evalWhileLoop_keepVar (fuel : Nat) (c : Expr) (body : List Stmt)
    (v : String) (env : Nat) (heap : Heap) (acc : Option Obj)
    (r : Option Obj) (h' : Heap)
    (hbody : bindsList v body = false) (hlt : env < heap.length)
    (h : evalWhileLoop fuel c body env heap acc = some (r, h')) :
    env < h'.length ∧ frameVar h' env v = frameVar heap env v := by
  match fuel with
  | 0 => exact absurd h (by simp [evalWhileLoop])
  | n + 1 =>
    simp only [evalWhileLoop] at h
    split at h
    · exact Option.noConfusion h
    · rename_i cond h1 hs
      have hp := EvalExpr_frames n c env heap cond h1 hs
      have hl1 := heapPre_mem_lt hp hlt
      have hv1 := frameVar_of_heapPre hp hlt v
      split at h
      · cases h; exact ⟨hl1, hv1⟩
      · split at h
        · split at h
          · exact Option.noConfusion h
          · rename_i r0 h2 hbk
            obtain ⟨hl2, hv2⟩ := evalBlockStatement_keepVar n body v env h1
              r0 h2 hbody hl1 hbk
            split at h
            · cases h; exact ⟨hl2, hv2.trans hv1⟩
            · obtain ⟨hl3, hv3⟩ := evalWhileLoop_keepVar n c body v env h2
                r0 r h' hbody hl2 h
              exact ⟨hl3, (hv3.trans hv2).trans hv1⟩
        · cases h; exact ⟨hl1, hv1⟩
  termination_by fuel

theorem evalForStatement_keepVar (fuel : Nat) (w : String) (iterable : Expr)
    (body : List Stmt) (v : String) (env : Nat) (heap : Heap)
    (r : Option Obj) (h' : Heap)
    (hw : w ≠ v) (hbody : bindsList v body = false) (hlt : env < heap.length)
    (h : evalForStatement fuel w iterable body env heap = some (r, h')) :
    env < h'.length ∧ frameVar h' env v = frameVar heap env v := by
  match fuel with
  | 0 => exact absurd h (by simp [evalForStatement])
  | n + 1 =>
    simp only [evalForStatement] at h
    split at h
    · exact Option.noConfusion h
    · rename_i it h1 hs
      have hp := EvalExpr_frames n iterable env heap it h1 hs
      have hl1 := heapPre_mem_lt hp hlt
      have hv1 := frameVar_of_heapPre hp hlt v
      split at h
      · cases h; exact ⟨hl1, hv1⟩
      · split at h
        · obtain ⟨hl2, hv2⟩ := evalForLoop_keepVar n w _ body v env h1
            (some .null) r h' hw hbody hl1 h
          exact ⟨hl2, hv2.trans hv1⟩
        · cases h; exact ⟨hl1, hv1⟩
  termination_by fuel

theorem evalForLoop_keepVar (fuel : Nat) (w : String)
    (elems : List (Option Obj)) (body : List Stmt) (v : String) (env : Nat)
    (heap : Heap) (acc : Option Obj) (r : Option Obj) (h' : Heap)
    (hw : w ≠ v) (hbody : bindsList v body = false) (hlt : env < heap.length)
    (h : evalForLoop fuel w elems body env heap acc = some (r, h')) :
    env < h'.length ∧ frameVar h' env v = frameVar heap env v := by
  match fuel with
  | 0 => exact absurd h (by simp [evalForLoop])
  | n + 1 =>
    cases elems with
    | nil =>
      simp only [evalForLoop] at h; cases h; exact ⟨hlt, rfl⟩
    | cons e es =>
      simp only [evalForLoop] at h
      have hlt1 : env < (envSet heap env w e).length := by
        rw [envSet_length]; exact hlt
      have hv0 : frameVar (envSet heap env w e) env v = frameVar heap env v :=
        frameVar_envSet_ne heap env w v e hw
      split at h
      · exact Option.noConfusion h
      · rename_i r0 h2 hbk
        obtain ⟨hl2, hv2⟩ := evalBlockStatement_keepVar n body v env
          (envSet heap env w e) r0 h2 hbody hlt1 hbk
        split at h
        · cases h; exact ⟨hl2, hv2.trans hv0⟩
        · obtain ⟨hl3, hv3⟩ := evalForLoop_keepVar n w es body v env h2
            r0 r h' hw hbody hl2 h
          exact ⟨hl3, (hv3.trans hv2).trans hv0⟩
  termination_by fuel

end

theorem evalForLoop_lastVar (fuel : Nat) (w : String)
    (elems : List (Option Obj)) (body : List Stmt) (env : Nat) (heap : Heap)
    (acc : Option Obj) (r : Option Obj) (h' : Heap)
    (hbody : bindsList w body = false) (hlt : env < heap.length)
    (hne : elems ≠ [])
    (h : evalForLoop fuel w elems body env heap acc = some (r, h'))
    (hnorm : isRetOrError r = false) :
    frameVar h' env w = some (elems.getLast hne) := by
  match fuel, elems with
  | 0, _ => exact absurd h (by simp [evalForLoop])
  | n + 1, [] => exact absurd rfl hne
  | n + 1, e :: es =>
    simp only [evalForLoop] at h
    have hlt1 : env < (envSet heap env w e).length := by
      rw [envSet_length]; exact hlt
    have hself : frameVar (envSet heap env w e) env w = some e :=
      frameVar_envSet_self heap env w e hlt
    split at h
    · exact Option.noConfusion h
    · rename_i r0 h2 hbk
      obtain ⟨hl2, hv2⟩ := evalBlockStatement_keepVar n body w env
        (envSet heap env w e) r0 h2 hbody hlt1 hbk
      split at h
      · rename_i hro
        cases h
        rw [hro] at hnorm
        exact Bool.noConfusion hnorm
      · cases es with
        | nil =>
          match n with
          | 0 => exact absurd h (by simp [evalForLoop])
          | m + 1 =>
            simp only [evalForLoop] at h
            cases h
            simp only [List.getLast]
            exact hv2.trans hself
        | cons e2 es2 =>
          have hrec := evalForLoop_lastVar n w (e2 :: es2) body env h2 r0
            r h' hbody hl2 (by simp) h hnorm
          rw [List.getLast_cons]
          exact hrec
  termination_by fuel

set_option maxRecDepth 4000 in
/-- Counterexample to C10 as stated: a `for each` body that rebinds the
loop variable leaves it bound to the body's value (99), not to the last
element (2) of the list, even though the loop completes normally. -/
theorem claim10_foreach_binding_counterexample :
    EvalStmt 10 (.forS "v" (.ident "xs") [.set "v" (.intLit 99 "99")]) 0
        [⟨[("xs", some (.list [some (.int 1), some (.int 2)])),
           ("v", some (.int 0))], none⟩] =
      some (some (.int 99),
        [⟨[("xs", some (.list [some (.int 1), some (.int 2)])),
           ("v", some (.int 99))], none⟩]) ∧
    frameVar [⟨[("xs", some (.list [some (.int 1), some (.int 2)])),
           ("v", some (.int 99))], none⟩] 0 "v" ≠ some (some (.int 2)) := by
  refine ⟨rfl, ?_⟩
  simp [frameVar, storeGet]

/-- C10 (amended): `for each` binds its loop variable by `envSet` directly
in the enclosing frame `env` before each iteration (first conjunct, the
step equation of the loop), not in a fresh per-iteration scope; and
provided the body never rebinds the variable, after a loop over a
non-empty list completes normally (no return/error escape) the loop
variable is bound in that same frame to the last element of the list,
overwriting any previous binding. -/
theorem claim10_foreach_binding (n : Nat) (w : String) (iterable : Expr)
    (body : List Stmt) (env : Nat) (heap : Heap)
    (elems : List (Option Obj)) (h1 : Heap) (r : Option Obj) (h' : Heap)
    (hit : EvalExpr n iterable env heap = some (some (.list elems), h1))
    (hnb : bindsList w body = false) (hlt : env < heap.length)
    (hne : elems ≠ [])
    (hrun : evalForStatement (n + 1) w iterable body env heap = some (r, h'))
    (hnorm : isRetOrError r = false) :
    (∀ e es acc hp, evalForLoop (n + 1) w (e :: es) body env hp acc =
        (match evalBlockStatement n body env (envSet hp env w e) with
         | none => none
         | some (r0, h2) =>
           if isRetOrError r0 then some (r0, h2)
           else evalForLoop n w es body env h2 r0)) ∧
    frameVar h' env w = some (elems.getLast hne) := by
  constructor
  · intro e es acc hp
    rfl
  · simp only [evalForStatement, hit, isError] at hrun
    exact evalForLoop_lastVar n w elems body env h1 (some .null) r h'
      hnb (heapPre_mem_lt (EvalExpr_frames n iterable env heap _ h1 hit) hlt)
      hne hrun hnorm

set_option maxRecDepth 4000 in
theorem claim10_foreach_binding_witness :
    frameVar [⟨[("xs", some (.list [some (.int 1), some (.int 2)])),
           ("v", some (.int 2))], none⟩] 0 "v" = some (some (.int 2)) := by
  have h := claim10_foreach_binding 3 "v" (.ident "xs") [] 0
    [⟨[("xs", some (.list [some (.int 1), some (.int 2)])),
       ("v", some (.int 0))], none⟩]
    [some (.int 1), some (.int 2)]
    [⟨[("xs", some (.list [some (.int 1), some (.int 2)])),
       ("v", some (.int 0))], none⟩]
    none
    [⟨[("xs", some (.list [some (.int 1), some (.int 2)])),
       ("v", some (.int 2))], none⟩]
    rfl (by simp [bindsList]) (by decide) (by simp) rfl rfl
  exact h.2
